import Mathlib

/-!
Verification development for the capital-gain PDF statement parser
(`apps/domain/services/capital_gain_parser.py`).

Modelling conventions:
* Python floats are modelled as rationals (`ℚ`); every constant appearing in
  the source (`35.0`, `4.0`, `24.0`, `2.5`, …) is exactly representable and all
  arithmetic performed by the parser (`+`, `-`, `/2`, `/4`, means, `min`/`max`,
  comparisons) is exact on the inputs considered here.
* `pdfplumber` word extraction is external: the parser is modelled as a
  function of the per-page word lists and page texts it would receive
  (`PageData`).  The cross-checker's fresh extraction of the same PDF is the
  same word list.
* `pandas.DataFrame` values are modelled by `Table` (column names plus string
  rows); dict-based rows keep Python's insertion-order/overwrite semantics via
  association lists.
* Python string methods (`strip`, `replace`, `startswith`, `in`, `lower`,
  `splitlines`, `round(·, 1)`) are re-implemented over `List Char` so that
  they compute by kernel reduction; they follow Python semantics on the ASCII
  range handled by this parser.
-/

set_option allowUnsafeReducibility true in
attribute [semireducible] Rat.add Rat.mul Rat.sub Rat.inv Rat.ofScientific

set_option maxRecDepth 20000

namespace CapitalGainParser

/-! ### Python-style string helpers (List Char based, kernel-computable) -/

/-- Whitespace characters recognised by Python's `str.strip`. -/
def pySpace (c : Char) : Bool :=
  c = ' ' || c = '\t' || c = '\n' || c = '\r' || c = '\x0b' || c = '\x0c'

/-- Python `str.strip()`. -/
def pyStrip (s : String) : String :=
  ⟨((s.data.dropWhile pySpace).reverse.dropWhile pySpace).reverse⟩

/-- Character-list lexicographic comparison by code point (Python `str <`). -/
def charListLt : List Char → List Char → Bool
  | [], [] => false
  | [], _ :: _ => true
  | _ :: _, [] => false
  | a :: as, b :: bs =>
    if a.toNat < b.toNat then true
    else if b.toNat < a.toNat then false
    else charListLt as bs

/-- Python `a < b` on strings. -/
def strLt (a b : String) : Bool := charListLt a.data b.data

/-- Python `pat in s` (substring containment). -/
def strContains (s pat : String) : Bool :=
  s.data.tails.any (fun t => pat.data.isPrefixOf t)

/-- Python `s.startswith(pat)`. -/
def strStarts (s pat : String) : Bool := pat.data.isPrefixOf s.data

/-- Characters of `l` before the first occurrence of `pat` (for Python
`s.split(pat, 1)[0]`; `pat` is nonempty at every call site). -/
def beforeFirstAux (pat : List Char) : List Char → List Char
  | [] => []
  | c :: rest => if pat.isPrefixOf (c :: rest) then [] else c :: beforeFirstAux pat rest

/-- Python `s.split(pat, 1)[0]`. -/
def beforeFirst (s pat : String) : String := ⟨beforeFirstAux pat.data s.data⟩

/-- Fuel-driven body of Python `str.replace` (left-to-right, non-overlapping);
the fuel is the length of the subject so the recursion is structural. -/
def replaceFuel (pat rep : List Char) : Nat → List Char → List Char
  | 0, l => l
  | _ + 1, [] => []
  | fuel + 1, c :: rest =>
    if pat.isPrefixOf (c :: rest) then
      rep ++ replaceFuel pat rep fuel ((c :: rest).drop pat.length)
    else
      c :: replaceFuel pat rep fuel rest

/-- Python `s.replace(pat, rep)` (every call site has a nonempty `pat`). -/
def pyReplace (s pat rep : String) : String :=
  ⟨replaceFuel pat.data rep.data s.data.length s.data⟩

/-- Python `s.lower()` (ASCII range). -/
def pyLower (s : String) : String := ⟨s.data.map Char.toLower⟩

/-- Python `s.isdigit()` for the ASCII digits used here. -/
def pyIsDigit (s : String) : Bool := !s.data.isEmpty && s.data.all Char.isDigit

/-- Python `s.isalnum()` (ASCII range). -/
def pyIsAlnum (s : String) : Bool := !s.data.isEmpty && s.data.all Char.isAlphanum

/-- Python `s.isalpha()` (ASCII range). -/
def pyIsAlpha (s : String) : Bool := !s.data.isEmpty && s.data.all Char.isAlpha

/-- Python `s.isprintable()` modelled on the ASCII range: all characters are
at code point ≥ 32 (the empty string is printable). -/
def pyIsPrintable (s : String) : Bool := s.data.all (fun c => 32 ≤ c.toNat)

/-- Join a list of strings with a single separator (Python `sep.join`). -/
def strJoinSep (sep : String) : List String → String
  | [] => ""
  | s :: rest => rest.foldl (fun acc t => acc ++ sep ++ t) s

/-- Split a character list at newline characters. -/
def splitNlAux : List Char → List (List Char)
  | [] => [[]]
  | c :: rest =>
    if c = '\n' then [] :: splitNlAux rest
    else
      match splitNlAux rest with
      | [] => [[c]]
      | seg :: segs => (c :: seg) :: segs

/-- Python `s.splitlines()` modelled as splitting at `\n` (the parser only
searches the resulting lines for a keyword, so the treatment of a trailing
newline is irrelevant). -/
def pySplitLines (s : String) : List String := (splitNlAux s.data).map (fun l => ⟨l⟩)

/-- Floor of a rational as an integer (`Rat.den` is positive, so `Int.fdiv`
is exact floor division). -/
def ratFloor (q : ℚ) : ℤ := Int.fdiv q.num q.den

/-- Round-half-even to the nearest integer. `Modelled from`: Python's `round`
on the exact decimal values handled here. -/
def roundHalfEven (q : ℚ) : ℤ :=
  let f := ratFloor q
  let r := q - (f : ℚ)
  if r < 1/2 then f
  else if 1/2 < r then f + 1
  else if f % 2 = 0 then f else f + 1

/-- Python `round(x, 1)` (one decimal place, banker's rounding). -/
def round1 (q : ℚ) : ℚ := (roundHalfEven (10 * q) : ℚ) / 10

/-! ### Generic list helpers -/

/-- Insert into a sorted list, keeping earlier elements first on ties
(the building block of a stable sort, matching Python `sorted`). -/
def insertLe {α : Type} (le : α → α → Bool) (x : α) : List α → List α
  | [] => [x]
  | y :: ys => if le x y then x :: y :: ys else y :: insertLe le x ys

/-- Stable insertion sort with respect to a total boolean preorder; on a total
preorder this computes the same list as Python's stable `sorted`. -/
def sortByKey {α : Type} (le : α → α → Bool) : List α → List α
  | [] => []
  | x :: xs => insertLe le x (sortByKey le xs)

/-- Minimum of a rational list (first element seeds the fold; call sites are
nonempty, mirroring Python `min`). -/
def listMinQ : List ℚ → ℚ
  | [] => 0
  | x :: xs => xs.foldl min x

/-- Maximum of a rational list with an explicit default for the empty case
(Python `max(..., default=d)`). -/
def listMaxQ (l : List ℚ) (dflt : ℚ) : ℚ :=
  match l with
  | [] => dflt
  | x :: xs => xs.foldl max x

/-- Mean of a rational list (call sites are nonempty). -/
def listMean (l : List ℚ) : ℚ := l.sum / l.length

/-- First index attaining the minimum of a list (Python `min(range(n), key=…)`). -/
def argminGo (bi : Nat) (bv : ℚ) (i : Nat) : List ℚ → Nat
  | [] => bi
  | v :: vs => if v < bv then argminGo i v (i + 1) vs else argminGo bi bv (i + 1) vs

/-- Index of the first minimal element of a rational list. -/
def argminIdx : List ℚ → Nat
  | [] => 0
  | x :: xs => argminGo 0 x 1 xs

/-! ### Data model (`_Word`, `ExtractedCell`, tables, statements) -/

/-- Lightweight representation of a token extracted from the PDF
(source dataclass `_Word`). -/
structure Word where
  text : String
  x0 : ℚ
  x1 : ℚ
  top : ℚ
  bottom : ℚ
  pageIndex : Nat
deriving DecidableEq, Repr

/-- Horizontal center of a word (`_Word.center`). -/
def Word.center (w : Word) : ℚ := (w.x0 + w.x1) / 2

/-- Provenance record for one extracted value (source dataclass
`ExtractedCell`); `sectionName` is the source's `section` field, renamed
because `section` is a Lean keyword. -/
structure ExtractedCell where
  sectionName : Option String
  column : String
  value_text : String
  words : List Word
deriving DecidableEq, Repr

/-- A pandas `DataFrame` as materialised by this parser: column labels plus
string-valued rows. -/
structure Table where
  columns : List String
  rows : List (List String)
deriving DecidableEq, Repr

/-- First-match lookup in an association list of strings (Python dict read). -/
def lookupStr : List (String × String) → String → Option String
  | [], _ => none
  | (k', v) :: rest, k => if k' = k then some v else lookupStr rest k

/-- Python dict write: replace the value at the first occurrence of the key,
keeping its position, else append (insertion-ordered dict semantics). -/
def upsertStr : List (String × String) → String → String → List (String × String)
  | [], k, v => [(k, v)]
  | (k', v') :: rest, k, v =>
    if k' = k then (k', v) :: rest else (k', v') :: upsertStr rest k v

/-- Build a `DataFrame` from row dicts and an explicit column list
(`pd.DataFrame(rows, columns=…)` followed by the exporter's `fillna("")`). -/
def Table.ofRows (cols : List String) (rowMaps : List (List (String × String))) : Table :=
  ⟨cols, rowMaps.map (fun m => cols.map (fun c => (lookupStr m c).getD ""))⟩

/-- First-match lookup in an association list of tables. -/
def lookupT : List (String × Table) → String → Option Table
  | [], _ => none
  | (k', v) :: rest, k => if k' = k then some v else lookupT rest k

/-- Python dict assignment `d[k] = v` on a table dict. -/
def upsertT : List (String × Table) → String → Table → List (String × Table)
  | [], k, v => [(k, v)]
  | (k', v') :: rest, k, v =>
    if k' = k then (k', v) :: rest else (k', v') :: upsertT rest k v

/-- `pd.concat([t1, t2], ignore_index=True)`: equal column sets append rows;
otherwise an outer join on columns in order of appearance, missing entries
becoming `""` (the exporter's `fillna("")`). -/
def concatTables (t1 t2 : Table) : Table :=
  if t1.columns = t2.columns then ⟨t1.columns, t1.rows ++ t2.rows⟩
  else
    let extra := t2.columns.filter (fun c => !(t1.columns.contains c))
    let cols := t1.columns ++ extra
    let fix := fun (srcCols : List String) (r : List String) =>
      cols.map (fun c => (lookupStr (srcCols.zip r) c).getD "")
    ⟨cols, t1.rows.map (fix t1.columns) ++ t2.rows.map (fix t2.columns)⟩

/-- The `ValueError` message pandas raises when a column relabelling
`df.columns = names` is given the wrong number of names (modelled as a fixed
string; pandas spells out the two axis lengths). -/
def columnsMismatchError : String :=
  "Length mismatch: new column names do not match the number of columns"

/-- The `ValueError` message pandas raises when `df.insert(0, "Page", ...)`
finds a `Page` column already present. -/
def insertPageDuplicateError : String := "cannot insert Page, already exists"

/-- `df.insert(0, "Page", str(pageNo))`: pandas refuses to insert a column
label that already exists (`allow_duplicates` defaults to `False`) and raises
`ValueError`; otherwise the column is prepended to every row. -/
def insertPageCol (t : Table) (pageNo : Nat) : Except String Table :=
  if t.columns.contains "Page" then .error insertPageDuplicateError
  else .ok ⟨"Page" :: t.columns, t.rows.map (fun r => toString pageNo :: r)⟩

/-- The per-page tagging of one table as the page loop applies it: a `Page`
column is inserted exactly when the document is multi-page (raising when a
`Page` column already exists). -/
def tagTable (multi : Bool) (pageNo : Nat) (t : Table) : Except String Table :=
  if multi then insertPageCol t pageNo else .ok t

/-- The table `tagTable` yields on its non-raising path. -/
def pageTag (multi : Bool) (pageNo : Nat) (t : Table) : Table :=
  if multi then ⟨"Page" :: t.columns, t.rows.map (fun r => toString pageNo :: r)⟩
  else t

/-- The empty `pd.DataFrame()`. -/
def emptyTable : Table := ⟨[], []⟩

/-- Python dict update `section_tables[name] = pd.concat([old, new])`
(or plain insert when the key is new). -/
def upsertConcatT : List (String × Table) → String → Table → List (String × Table)
  | [], k, v => [(k, v)]
  | (k', v') :: rest, k, v =>
    if k' = k then (k', concatTables v' v) :: rest else (k', v') :: upsertConcatT rest k v

/-- Header metadata extracted from page 0 (the source's header dict with its
fixed key set). -/
structure Header where
  statement_period : String
  status : String
  pan : String
  folio : String
  name : String
  mobile : String
  address : List String
deriving DecidableEq, Repr

/-- The header dict as initialised by `_extract_header`. -/
def emptyHeader : Header := ⟨"", "", "", "", "", "", []⟩

/-- Structured result of a parse (source dataclass `CapitalGainStatement`);
`sections` keeps the insertion-ordered dict as an association list. -/
structure CapitalGainStatement where
  header : Header
  summary_table : Table
  sections : List (String × Table)
  cells : List ExtractedCell
deriving DecidableEq, Repr

/-- One page of extractor output: the word list and the plain page text. -/
structure PageData where
  words : List Word
  text : String
deriving DecidableEq, Repr

/-- All words of the document in page order (what the cross-checker's fresh
`pdfplumber` read of the same PDF yields). -/
def allWords (pages : List PageData) : List Word := pages.flatMap PageData.words

/-! ### Sorting words -/

/-- Stable sort by `x0` (Python `sorted(words, key=lambda w: w.x0)`). -/
def sortByX0 (ws : List Word) : List Word :=
  sortByKey (fun a b => decide (a.x0 ≤ b.x0)) ws

/-- Stable sort by the key `(top, x0)`. -/
def sortByTopX0 (ws : List Word) : List Word :=
  sortByKey (fun a b =>
    decide (a.top < b.top) || (decide (a.top = b.top) && decide (a.x0 ≤ b.x0))) ws

/-! ### Row/column clustering (`_cluster_row_words`) -/

/-- Loop of `_cluster_row_words`: `c` is the last word of the current cluster
(`current_cluster[-1]`), `acc` the earlier words of the current cluster in
reverse order. -/
def clusterGo (t : ℚ) (c : Word) (acc : List Word) : List Word → List (List Word)
  | [] => [(c :: acc).reverse]
  | w :: ws =>
    if w.x0 - c.x1 > t then (c :: acc).reverse :: clusterGo t w [] ws
    else clusterGo t w (c :: acc) ws

/-- Source `_cluster_row_words`: sort by `x0` and grow a cluster while the gap
between the next word's `x0` and the current cluster's last word's `x1` stays
≤ the threshold. -/
def _cluster_row_words (words : List Word) (gap_threshold : ℚ) : List (List Word) :=
  match sortByX0 words with
  | [] => []
  | w :: rest => clusterGo gap_threshold w [] rest

/-- Largest `x1` among a word list (the "rightmost extent" used by the spec's
description of the clustering gap). -/
def maxX1 : List Word → ℚ
  | [] => 0
  | w :: ws => ws.foldl (fun m v => max m v.x1) w.x1

/-! ### Token joining and cells (`_join_tokens`, `_extract_row_cells`) -/

/-- Loop of `_join_tokens` (`acc` carries the cleaned strings in reverse). -/
def joinTokensGo (acc : List String) : List Word → List String
  | [] => acc.reverse
  | t :: ts =>
    let c := pyStrip t.text
    if c = "" then joinTokensGo acc ts
    else
      match acc with
      | prev :: _ => if c = prev then joinTokensGo acc ts else joinTokensGo (c :: acc) ts
      | [] => joinTokensGo [c] ts

/-- Source `_join_tokens`: strip each token, skip empties and immediate exact
repeats, join with single spaces. -/
def _join_tokens (tokens : List Word) : String :=
  pyStrip (strJoinSep " " (joinTokensGo [] tokens))

/-- Column band definition (source dataclass `_ColumnDef`); `sectionName` is
the source's `section` field. -/
structure ColumnDef where
  name : String
  left : ℚ
  right : ℚ
  center : ℚ
  sectionName : Option String
deriving DecidableEq, Repr

/-- Column loop of `_extract_row_cells`: update the row dict and append a
provenance cell for every non-empty value. -/
def extractRowCellsGo (sortedW : List Word) (sectionName : Option String) :
    List ColumnDef → List (String × String) × List ExtractedCell →
      List (String × String) × List ExtractedCell
  | [], acc => acc
  | col :: cols, acc =>
    let tokens := sortedW.filter (fun w =>
      decide (col.left ≤ Word.center w ∧ Word.center w ≤ col.right))
    let value := _join_tokens tokens
    extractRowCellsGo sortedW sectionName cols
      (if value = "" then (upsertStr acc.1 col.name "", acc.2)
       else (upsertStr acc.1 col.name value,
             acc.2 ++ [⟨sectionName, col.name, value, tokens⟩]))

/-- Source `_extract_row_cells`: for each column, collect the row's words whose
center falls in the column band, join them, and record a provenance cell for
every non-empty value. -/
def _extract_row_cells (row_words : List Word) (columns : List ColumnDef)
    (sectionName : Option String) :
    List (String × String) × List ExtractedCell :=
  extractRowCellsGo (sortByX0 row_words) sectionName columns
    (columns.foldl (fun m c => upsertStr m c.name "") [], [])

/-! ### Line grouping (`_group_words_by_line`) -/

/-- Loop of `_group_words_by_line`: `firstTop` is the `top` of the first word
of the current group, `cur` the current group in reverse order. -/
def groupLinesGo (tol : ℚ) (firstTop : ℚ) (cur : List Word) : List Word → List (List Word)
  | [] => [cur.reverse]
  | w :: ws =>
    if |w.top - firstTop| ≤ tol then groupLinesGo tol firstTop (w :: cur) ws
    else cur.reverse :: groupLinesGo tol w.top [w] ws

/-- Source `_group_words_by_line`: sort by `(top, x0)`, grow a line while each
word's `top` is within the tolerance of the group's first word, and return
each group with its average `top`. -/
def _group_words_by_line (words : List Word) (top_tolerance : ℚ) :
    List (ℚ × List Word) :=
  let groups :=
    match sortByTopX0 words with
    | [] => []
    | w :: rest => groupLinesGo top_tolerance w.top [w] rest
  groups.map (fun g => (listMean (g.map Word.top), g))

/-! ### Column builder from data clusters (`_build_columns_from_clusters`) -/

/-- Mean center of a cluster. -/
def clusterCenter (c : List Word) : ℚ := listMean (c.map Word.center)

/-- Smallest `x0` of a cluster. -/
def clusterMinX0 (c : List Word) : ℚ := listMinQ (c.map Word.x0)

/-- Largest `x1` of a cluster. -/
def clusterMaxX1 (c : List Word) : ℚ := listMaxQ (c.map Word.x1) 0

/-- Header-token to cluster assignment of `_build_columns_from_clusters`:
nearest cluster center, bumped one cluster right when the token's center
overhangs the cluster's right bound by more than the margin. -/
def assignHeaderIdx (centers : List ℚ) (bnds : List (ℚ × ℚ)) (t : Word) : Nat :=
  let nearest := argminIdx (centers.map (fun ci => |ci - Word.center t|))
  let maxX := (bnds.getD nearest (0, 0)).2
  if Word.center t > maxX + 5 ∧ nearest < centers.length - 1 then nearest + 1 else nearest

/-- Untrimmed left bound of column `idx` (first column: cluster min − 5;
otherwise midpoint of the adjacent cluster centers). -/
def colLeftRaw (centers : List ℚ) (bnds : List (ℚ × ℚ)) (idx : Nat) : ℚ :=
  if idx = 0 then (bnds.getD 0 (0, 0)).1 - 5
  else (centers.getD (idx - 1) 0 + centers.getD idx 0) / 2

/-- Untrimmed right bound of column `idx` (last column: cluster max + 5;
otherwise midpoint of the adjacent cluster centers). -/
def colRightRaw (centers : List ℚ) (bnds : List (ℚ × ℚ)) (n idx : Nat) : ℚ :=
  if idx = n - 1 then (bnds.getD idx (0, 0)).2 + 5
  else (centers.getD idx 0 + centers.getD (idx + 1) 0) / 2

/-- The inward trim `min(5, span/4)` of column `idx`. -/
def colMargin (centers : List ℚ) (bnds : List (ℚ × ℚ)) (n idx : Nat) : ℚ :=
  min 5 ((colRightRaw centers bnds n idx - colLeftRaw centers bnds idx) / 4)

/-- Final left bound of column `idx` (trim applied except at the first column). -/
def colLeft (centers : List ℚ) (bnds : List (ℚ × ℚ)) (n idx : Nat) : ℚ :=
  if 0 < idx then colLeftRaw centers bnds idx + colMargin centers bnds n idx
  else colLeftRaw centers bnds idx

/-- Final right bound of column `idx` (trim applied except at the last column). -/
def colRight (centers : List ℚ) (bnds : List (ℚ × ℚ)) (n idx : Nat) : ℚ :=
  if idx < n - 1 then colRightRaw centers bnds n idx - colMargin centers bnds n idx
  else colRightRaw centers bnds n idx

/-- Name of column `idx`: ordered, de-duplicated join of its assigned header
tokens, defaulting to `"Value"`. -/
def colName (centers : List ℚ) (bnds : List (ℚ × ℚ)) (header_words : List Word)
    (idx : Nat) : String :=
  let toks := sortByTopX0 (header_words.filter (fun t =>
    assignHeaderIdx centers bnds t = idx))
  let nm := _join_tokens toks
  if nm = "" then "Value" else nm

/-- Source `_build_columns_from_clusters`. -/
def _build_columns_from_clusters (clusters : List (List Word))
    (header_words : List Word) (sectionName : Option String) : List ColumnDef :=
  match clusters with
  | [] => []
  | _ =>
    let centers := clusters.map clusterCenter
    let bnds := clusters.map (fun c => (clusterMinX0 c, clusterMaxX1 c))
    let n := clusters.length
    (List.range n).map (fun idx =>
      { name := colName centers bnds header_words idx
        left := colLeft centers bnds n idx
        right := colRight centers bnds n idx
        center := centers.getD idx 0
        sectionName := sectionName })

/-! ### Header-group column builder (`_group_header_columns`,
`_columns_from_header_groups`) -/

/-- A header column-name group with its derived statistics (the dict built by
`_group_header_columns`). -/
structure HeaderGroup where
  words : List Word
  center : ℚ
  minX : ℚ
  maxX : ℚ
  name : String
deriving DecidableEq, Repr

/-- Add a word to the first existing group whose running mean center is within
tolerance, else append a fresh group (the `for … else` loop of
`_group_header_columns`). -/
def hgAdd (tol : ℚ) (w : Word) :
    List (List Word × List ℚ) → List (List Word × List ℚ)
  | [] => [([w], [Word.center w])]
  | g :: gs =>
    if |listMean g.2 - Word.center w| ≤ tol then
      (g.1 ++ [w], g.2 ++ [Word.center w]) :: gs
    else g :: hgAdd tol w gs

/-- Source `_group_header_columns`. -/
def _group_header_columns (header_words : List Word) (tolerance : ℚ) :
    List HeaderGroup :=
  match header_words with
  | [] => []
  | _ =>
    let phase1 := (sortByX0 header_words).foldl (fun gs w => hgAdd tolerance w gs) []
    phase1.map (fun g =>
      { words := g.1
        center := listMean g.2
        minX := listMinQ (g.1.map Word.x0)
        maxX := listMaxQ (g.1.map Word.x1) 0
        name := _join_tokens (sortByTopX0 g.1) })

/-- Untrimmed left bound of header-group column `idx`. -/
def hgLeftRaw (groups : List HeaderGroup) (idx : Nat) : ℚ :=
  let g := groups.getD idx ⟨[], 0, 0, 0, ""⟩
  if idx = 0 then g.minX - 5
  else ((groups.getD (idx - 1) ⟨[], 0, 0, 0, ""⟩).center + g.center) / 2

/-- Untrimmed right bound of header-group column `idx`. -/
def hgRightRaw (groups : List HeaderGroup) (idx : Nat) : ℚ :=
  let g := groups.getD idx ⟨[], 0, 0, 0, ""⟩
  if idx = groups.length - 1 then g.maxX + 5
  else (g.center + (groups.getD (idx + 1) ⟨[], 0, 0, 0, ""⟩).center) / 2

/-- Source `_columns_from_header_groups`: midpoint bounds with the same trim as
the cluster builder, then widened so that the corresponding data cluster is
always covered (`left = max(left, cluster_min - 3)`,
`right = max(right, cluster_max + 3)`). -/
def _columns_from_header_groups (groups : List HeaderGroup)
    (sectionName : Option String) (cluster_bounds : List (ℚ × ℚ)) : List ColumnDef :=
  match groups with
  | [] => []
  | _ =>
    let n := groups.length
    (List.range n).map (fun idx =>
      let g := groups.getD idx ⟨[], 0, 0, 0, ""⟩
      let left0 := hgLeftRaw groups idx
      let right0 := hgRightRaw groups idx
      let m := min 5 ((right0 - left0) / 4)
      let left1 := if 0 < idx then left0 + m else left0
      let right1 := if idx < n - 1 then right0 - m else right0
      let lr :=
        if cluster_bounds ≠ [] ∧ idx < cluster_bounds.length then
          let cb := cluster_bounds.getD idx (0, 0)
          (max left1 (cb.1 - 3), max right1 (cb.2 + 3))
        else (left1, right1)
      { name := g.name
        left := lr.1
        right := lr.2
        center := g.center
        sectionName := sectionName })

/-! ### Section boundary detection (`_detect_sections`) -/

/-- Horizontal span assigned to one labeled section (source dataclass
`_SectionBoundary`). -/
structure SectionBoundary where
  name : String
  left : ℚ
  right : ℚ
deriving DecidableEq, Repr

/-- First index of a word in a list. `Modelled from` the identity-based
`_word_index`; on the parser's inputs the searched word is a member, and
structural equality finds the same index as Python identity whenever the list
has no duplicate records. -/
def wordIndexOf : List Word → Word → Nat
  | [], _ => 0
  | x :: xs, w => if x = w then 0 else wordIndexOf xs w + 1

/-- The label-absorption scan of `_detect_sections`: walk the remaining words,
stop at the next `"Section"` token on almost the same line (`|Δtop| < 5`),
absorb any other word with `|Δtop| ≤ 5`. -/
def absorbLabel (base : Word) : List Word → List Word
  | [] => []
  | nw :: rest =>
    if nw.text = "Section" ∧ |nw.top - base.top| < 5 then []
    else if |nw.top - base.top| ≤ 5 then nw :: absorbLabel base rest
    else absorbLabel base rest

/-- The accepted section labels of a page as `(mean center, label text)`
pairs, sorted by center — the `centers_sorted` list of `_detect_sections`. -/
def acceptedLabels (words : List Word) : List (ℚ × String) :=
  let sectionWords := (sortByTopX0 words).filter (fun w =>
    decide (200 ≤ w.top ∧ w.top ≤ 520) && decide (w.text = "Section"))
  let pairs := sectionWords.map (fun w =>
    let seq := w :: absorbLabel w (words.drop (wordIndexOf words w + 1))
    let text := pyStrip (strJoinSep " " ((sortByX0 seq).map Word.text))
    (listMean (seq.map Word.center), text))
  let accepted := pairs.filter (fun ct =>
    strStarts ct.2 "Section A :" || strStarts ct.2 "Section B :" ||
    strStarts ct.2 "Section C :")
  sortByKey (fun a b => decide (a.1 ≤ b.1)) accepted

/-- Pre-margin span of section `idx`: midpoints between adjacent label
centers, the first extending to 0 and the last to the page width 1000. -/
def sectionSpanRaw (cs : List ℚ) (idx : Nat) : ℚ × ℚ :=
  ((if 0 < idx then (cs.getD (idx - 1) 0 + cs.getD idx 0) / 2 else 0),
   (if idx < cs.length - 1 then (cs.getD idx 0 + cs.getD (idx + 1) 0) / 2 else 1000))

/-- Final span of section `idx`: each side pushed outward by the margin 40 and
clamped to `[0, 1000]`. -/
def sectionSpan (cs : List ℚ) (idx : Nat) : ℚ × ℚ :=
  let raw := sectionSpanRaw cs idx
  (max 0 (raw.1 - 40), min 1000 (raw.2 + 40))

/-- Source `_detect_sections`. -/
def _detect_sections (words : List Word) : List SectionBoundary :=
  let labs := acceptedLabels words
  let cs := labs.map Prod.fst
  (List.range labs.length).map (fun idx =>
    let sp := sectionSpan cs idx
    ⟨(labs.getD idx (0, "")).2, sp.1, sp.2⟩)

/-! ### Canonical column names (`_canonical_section_columns`) -/

/-- Canonical Section A column names. -/
def sectionAColumns : List String :=
  ["Trxn. Type", "Date", "Current Units", "Source Scheme Units",
   "Original Purchase Cost", "**Original Purchase Amount",
   "Grandfathered Nav as on 31/01/2018", "GrandFathered Cost Value",
   "IT Applicable NAV", "IT Applicable Cost Value"]

/-- Canonical Section B column names. -/
def sectionBColumns : List String :=
  ["IT Applicable NAV", "IT Applicable Cost Value", "Trxn. Type", "Date",
   "Units", "Amount", "Price", "Tax Perc", "Total Tax"]

/-- Canonical Section C column names. -/
def sectionCColumns : List String :=
  ["Tax Perc", "Total Tax", "Short Term", "Indexed Cost",
   "Long Term With Index", "Long Term Without Index"]

/-- Source `_canonical_section_columns`: the known-correct name list, sliced to
the column count, whenever the section prefix matches and the count is at
least the schema length. -/
def _canonical_section_columns (section_name : String) (column_count : Nat) :
    Option (List String) :=
  if strStarts section_name "Section A" ∧ 10 ≤ column_count then
    some (sectionAColumns.take column_count)
  else if strStarts section_name "Section B" ∧ 9 ≤ column_count then
    some (sectionBColumns.take column_count)
  else if strStarts section_name "Section C" ∧ 6 ≤ column_count then
    some (sectionCColumns.take column_count)
  else none

/-! ### Numeric-token classifier (`_looks_like_numeric`) -/

/-- The source's numeric regex as a character-class predicate: a tail character
is a digit, comma, period, forward slash or hyphen. -/
def numericTail (c : Char) : Bool :=
  c.isDigit || c = ',' || c = '.' || c = '/' || c = '-'

/-- Source `_looks_like_numeric`. -/
def _looks_like_numeric (text : String) : Bool :=
  let cleaned := pyReplace (pyStrip text) "₹" ""
  match cleaned.data with
  | [] => false
  | c :: rest => c.isDigit && rest.all numericTail

/-! ### Per-section assembly (`_parse_detail_sections`) -/

/-- The words of a page belonging to a section boundary's detail band. -/
def sectionWords (words : List Word) (b : SectionBoundary) : List Word :=
  words.filter (fun w =>
    decide (b.left ≤ Word.center w ∧ Word.center w ≤ b.right ∧
      330 ≤ w.top ∧ w.top ≤ 420))

/-- Structural tokens removed from a section's own header row. -/
def headerSkipTokens : List String :=
  ["section", "a", "b", "c", ":", "subscriptions", "redemptions", "gains",
   "losses", "/"]

/-- `_is_total_row`: any token starts with `"Total"` after stripping. -/
def isTotalRow (group : List Word) : Bool :=
  group.any (fun w => strStarts (pyStrip w.text) "Total")

/-- `_is_data_row`: at least two numeric-looking tokens. -/
def isDataRow (group : List Word) : Bool :=
  2 ≤ (group.filter (fun w => _looks_like_numeric w.text)).length

/-- Line groups of a section's band (tolerance 1.5). -/
def sectionLineGroups (words : List Word) (b : SectionBoundary) :
    List (ℚ × List Word) :=
  _group_words_by_line (sectionWords words b) (3/2)

/-- Header candidate lines of a section (average `top` at most 372). -/
def headerCandidates (words : List Word) (b : SectionBoundary) :
    List (ℚ × List Word) :=
  (sectionLineGroups words b).filter (fun g => decide (g.1 ≤ 372))

/-- The section's header tokens after removing structural tokens. -/
def sectionHeaderWords (words : List Word) (b : SectionBoundary) : List Word :=
  (headerCandidates words b).flatMap (fun g =>
    g.2.filter (fun w => !(headerSkipTokens.contains (pyLower w.text))))

/-- Data candidate lines: strictly below the header band plus 2 units. -/
def dataCandidates (words : List Word) (b : SectionBoundary) :
    List (ℚ × List Word) :=
  let headerMaxTop := listMaxQ ((headerCandidates words b).map Prod.fst) 0
  (sectionLineGroups words b).filter (fun g => decide (g.1 > headerMaxTop + 2))

/-- The qualifying data rows of a section (≥ 2 numeric tokens, not a total row). -/
def dataGroups (words : List Word) (b : SectionBoundary) : List (List Word) :=
  ((dataCandidates words b).map Prod.snd).filter
    (fun g => isDataRow g && !isTotalRow g)

/-- The total rows of a section. -/
def totalGroups (words : List Word) (b : SectionBoundary) : List (List Word) :=
  ((dataCandidates words b).map Prod.snd).filter isTotalRow

/-- The column set derived for one section: header groups with a tolerance of
24 when present (widened by the data-cluster bounds), otherwise columns built
from the data clusters (gap threshold 4). -/
def sectionColumns (words : List Word) (b : SectionBoundary) : List ColumnDef :=
  let flattened := (dataGroups words b).flatMap id
  let clusters := _cluster_row_words flattened 4
  let headerGroups := _group_header_columns (sectionHeaderWords words b) 24
  match headerGroups with
  | [] => _build_columns_from_clusters clusters (sectionHeaderWords words b) (some b.name)
  | _ =>
    _columns_from_header_groups headerGroups (some b.name)
      (clusters.map (fun c => (clusterMinX0 c, clusterMaxX1 c)))

/-- `df.columns = names`: pandas relabels the columns in place when the name
list has exactly one name per column, and raises `ValueError` (`Length
mismatch`) otherwise. -/
def setTableColumns (t : Table) (names : List String) : Except String Table :=
  if names.length = t.columns.length then .ok { t with columns := names }
  else .error columnsMismatchError

/-- Assembly of one detected section: `.ok none` exactly on the two
silent-skip paths of the source (`if not section_words: continue`,
`if not data_groups: continue`); otherwise the section table (canonical
column override applied when the count guard passes) with its provenance
cells.  The override `df.columns = canonical_columns` raises when the
canonical list — always exactly the schema length 10/9/6 — does not match
the column count; the guard is `>=`, so a strictly larger count raises, and
nothing catches the error (source line 384). -/
def assembleSection (words : List Word) (b : SectionBoundary) :
    Except String (Option (Table × List ExtractedCell)) :=
  if sectionWords words b = [] then .ok none
  else if dataGroups words b = [] then .ok none
  else
    let columns := sectionColumns words b
    let rowsCells := ((dataGroups words b) ++ (totalGroups words b)).map
      (fun g => _extract_row_cells g columns (some b.name))
    let df0 := Table.ofRows (columns.map ColumnDef.name) (rowsCells.map Prod.fst)
    match _canonical_section_columns b.name columns.length with
    | some canon =>
      match setTableColumns df0 canon with
      | .ok df => .ok (some (df, (rowsCells.map Prod.snd).flatMap id))
      | .error e => .error e
    | none => .ok (some (df0, (rowsCells.map Prod.snd).flatMap id))

/-- The loop body of `_parse_detail_sections`: a raised error aborts the rest
of the fold. -/
def detailStep (words : List Word)
    (acc : Except String (List (String × Table) × List ExtractedCell))
    (b : SectionBoundary) :
    Except String (List (String × Table) × List ExtractedCell) :=
  match acc with
  | .error e => .error e
  | .ok acc =>
    match assembleSection words b with
    | .error e => .error e
    | .ok none => .ok acc
    | .ok (some (df, cs)) => .ok (upsertT acc.1 b.name df, acc.2 ++ cs)

/-- Source `_parse_detail_sections`: fold the detected boundaries, skipping
sections without qualifying rows, assigning tables into the page's section
dict and extending the cell list; a canonical-override length mismatch
raises out of the fold. -/
def _parse_detail_sections (words : List Word) :
    Except String (List (String × Table) × List ExtractedCell) :=
  (_detect_sections words).foldl (detailStep words) (.ok ([], []))

/-- The page's section dict on the non-raising path (`[]` when the page's
detail parse raises — in which case the whole parse aborts anyway). -/
def pageSectionTables (p : PageData) : List (String × Table) :=
  match _parse_detail_sections p.words with
  | .error _ => []
  | .ok pt => pt.1

/-! ### Summary table (`_parse_summary_table`) -/

/-- The `ValueError` message `_parse_summary_table` raises when the summary
data-row band is empty. -/
def summaryRowError : String := "Failed to locate the scheme summary row."

/-- Source `_parse_summary_table`: fixed vertical bands for header, data row
and total row; raises (`Except.error`) when the data-row band is empty. -/
def _parse_summary_table (words : List Word) :
    Except String (Table × List ExtractedCell) :=
  let header_words := words.filter (fun w => decide (228 ≤ w.top ∧ w.top ≤ 245))
  let data_row_words := words.filter (fun w => decide (248 ≤ w.top ∧ w.top ≤ 265))
  let total_row_words := words.filter (fun w => decide (266 ≤ w.top ∧ w.top ≤ 285))
  match data_row_words with
  | [] => .error summaryRowError
  | _ =>
    let clusters := _cluster_row_words data_row_words 35
    let columns := _build_columns_from_clusters clusters header_words none
    let r1 := _extract_row_cells data_row_words columns none
    let r2 := _extract_row_cells total_row_words columns none
    .ok (Table.ofRows (columns.map ColumnDef.name) [r1.1, r2.1], r1.2 ++ r2.2)

/-! ### Header extraction (`_extract_header`, `_normalize_spaced_tokens`) -/

/-- Recursion of `_normalize_spaced_tokens` with the letter buffer. -/
def normalizeGo (buf : String) : List String → List String
  | [] => if buf = "" then [] else [buf]
  | t :: ts =>
    if t.length = 1 ∧ pyIsAlpha t then normalizeGo (buf ++ t) ts
    else if buf ≠ "" then
      if pyIsAlpha t then (buf ++ t) :: normalizeGo "" ts
      else buf :: t :: normalizeGo "" ts
    else t :: normalizeGo "" ts

/-- Source `_normalize_spaced_tokens`: merge letter-by-letter fragments back
into words and join with spaces. -/
def _normalize_spaced_tokens (tokens : List String) : String :=
  strJoinSep " " (normalizeGo "" tokens)

/-- Source `_extract_header`: best-effort header metadata from fixed vertical
bands of page 0. -/
def _extract_header (words : List Word) (page_text : String) : Header :=
  let statement_period :=
    ((pySplitLines page_text).find? (fun l => strContains l "For the period")).map
      pyStrip |>.getD ""
  let status_tokens := (words.filter (fun w => decide (55 ≤ w.top ∧ w.top ≤ 70))).map
    Word.text
  let status :=
    match status_tokens with
    | [] => ""
    | _ =>
      let s1 := pyStrip (pyReplace (_normalize_spaced_tokens status_tokens) "Status :" "")
      if strContains s1 "PAN" then pyStrip (beforeFirst s1 "PAN") else s1
  let pan := ((words.find? (fun w =>
    decide (w.text.data.length = 10) && pyIsAlnum w.text && decide (w.top < 120))).map
    Word.text).getD ""
  let folio := ((words.find? (fun w =>
    pyIsDigit w.text && decide (8 ≤ w.text.data.length) && decide (w.top < 120))).map
    Word.text).getD ""
  let name_tokens := (words.filter (fun w => decide (85 ≤ w.top ∧ w.top ≤ 100))).map
    Word.text
  let nameVal :=
    match name_tokens with
    | [] => ""
    | _ =>
      pyStrip (pyReplace (pyReplace (_normalize_spaced_tokens name_tokens)
        "Name :" "") "Name" "")
  let mobile := ((words.find? (fun w =>
    pyIsDigit w.text && decide (w.text.data.length = 10) &&
    decide (150 ≤ w.top ∧ w.top ≤ 170))).map Word.text).getD ""
  let addressTopList := (words.filter (fun w =>
    decide (100 ≤ w.top ∧ w.top ≤ 160) && !(strContains w.text ":") &&
    pyIsPrintable w.text)).map (fun w => round1 w.top)
  let addressTops := (sortByKey (fun a b => decide (a ≤ b)) addressTopList).dedup
  let address := (addressTops.map (fun tp =>
    let line_tokens := ((sortByX0 words).filter (fun w =>
      decide (|w.top - tp| ≤ 1) && !(strContains w.text ":"))).map Word.text
    pyStrip (strJoinSep " " line_tokens))).filter
    (fun l => l ≠ "" && !(strStarts l "Name"))
  ⟨statement_period, status, pan, folio, nameVal, mobile, address⟩

/-! ### Top-level parse (`parse_capital_gain_statement`) -/

/-- Accumulator of the page loop in `parse_capital_gain_statement`. -/
structure ParseAcc where
  header : Option Header
  frames : List Table
  sections : List (String × Table)
  cells : List ExtractedCell
deriving DecidableEq, Repr

/-- The per-page tagged section tables of the loop's non-raising path: a
`Page` column with the 1-based page number is inserted exactly when the
document is multi-page. -/
def taggedEntries (multi : Bool) (idx : Nat) (p : PageData) :
    List (String × Table) :=
  (pageSectionTables p).map (fun e => (e.1, pageTag multi (idx + 1) e.2))

/-- The tagging loop over one page's section dict: the first failing
`df.insert` aborts — its `ValueError` is uncaught on the section path
(source line 163). -/
def tagEntries (multi : Bool) (pageNo : Nat) :
    List (String × Table) → Except String (List (String × Table))
  | [] => .ok []
  | e :: rest =>
    match tagTable multi pageNo e.2 with
    | .error msg => .error msg
    | .ok t =>
      match tagEntries multi pageNo rest with
      | .error msg => .error msg
      | .ok ts => .ok ((e.1, t) :: ts)

/-- The summary frame page 0 contributes: the (possibly tagged) summary
table when both the band parse and the `Page` insert succeed, nothing when
either raises (the whole block sits in one `try/except ValueError`). -/
def summaryFrame (multi : Bool) (words : List Word) : Option Table :=
  match _parse_summary_table words with
  | .ok dfCells =>
    match tagTable multi 1 dfCells.1 with
    | .ok df' => some df'
    | .error _ => none
  | .error _ => none

/-- The header and summary part of one page-loop iteration (everything the
source runs before `_parse_detail_sections`): header on page 0, summary on
page 0 with every `ValueError` of the summary block — including one from its
`df.insert` — silently caught (`try/except ValueError: pass`, in which case
neither the frame nor the summary cells are recorded). -/
def parseStepPre (multi : Bool) (idx : Nat) (p : PageData) (acc : ParseAcc) :
    ParseAcc :=
  let acc1 :=
    if acc.header = none ∧ idx = 0 then
      { acc with header := some (_extract_header p.words p.text) }
    else acc
  if idx = 0 then
    match _parse_summary_table p.words with
    | .ok dfCells =>
      match tagTable multi 1 dfCells.1 with
      | .ok df' =>
        { acc1 with
          frames := acc1.frames ++ [df']
          cells := acc1.cells ++ dfCells.2 }
      | .error _ => acc1
    | .error _ => acc1
  else acc1

/-- One iteration of the page loop: the header/summary part, then the page's
detail sections — whose canonical-override `ValueError` propagates — merged
into the running section dict after tagging — whose `df.insert` `ValueError`
propagates as well. -/
def parseStep (multi : Bool) (idx : Nat) (p : PageData) (acc : ParseAcc) :
    Except String ParseAcc :=
  let acc2 := parseStepPre multi idx p acc
  match _parse_detail_sections p.words with
  | .error e => .error e
  | .ok pt =>
    match tagEntries multi (idx + 1) pt.1 with
    | .error e => .error e
    | .ok entries =>
      .ok { acc2 with
            sections := entries.foldl (fun m e => upsertConcatT m e.1 e.2) acc2.sections
            cells := acc2.cells ++ pt.2 }

/-- The sequential page loop; a raised error aborts it. -/
def parseLoop (multi : Bool) : Nat → List PageData → ParseAcc → Except String ParseAcc
  | _, [], acc => .ok acc
  | idx, p :: ps, acc =>
    match parseStep multi idx p acc with
    | .error e => .error e
    | .ok acc' => parseLoop multi (idx + 1) ps acc'

/-- The `ValueError` message of the empty-PDF check. -/
def noPagesError : String := "No pages found in PDF"

/-- Source `parse_capital_gain_statement`: raises on an empty PDF, otherwise
loops over the pages and assembles the statement; an uncaught `ValueError`
from a page's section path aborts the whole parse.  The summary table is the
concatenation of the collected summary frames (at most one, from page 0) or
the empty frame. -/
def parse_capital_gain_statement (pages : List PageData) :
    Except String CapitalGainStatement :=
  match pages with
  | [] => .error noPagesError
  | _ =>
    match parseLoop (decide (1 < pages.length)) 0 pages ⟨none, [], [], []⟩ with
    | .error e => .error e
    | .ok acc =>
      let summary :=
        match acc.frames with
        | [] => emptyTable
        | f :: fs => fs.foldl concatTables f
      .ok ⟨acc.header.getD emptyHeader, summary, acc.sections, acc.cells⟩

/-! ### Export (`to_combined_csv`) -/

/-- Minimal-quoting CSV field (Python `csv.writer` default dialect): quote when
the field contains a comma, a double quote or a line break, doubling quotes. -/
def csvField (s : String) : String :=
  if s.data.any (fun c => c = ',' || c = '"' || c = '\n' || c = '\r') then
    "\"" ++ pyReplace s "\"" "\"\"" ++ "\""
  else s

/-- One CSV line with the writer's default `\r\n` terminator. -/
def csvRow (r : List String) : String :=
  strJoinSep "," (r.map csvField) ++ "\x0d\n"

/-- Source `_table_to_rows`: the column header followed by the value rows
(an empty frame contributes only its column row). -/
def _table_to_rows (t : Table) : List (List String) := t.columns :: t.rows

/-- Source `CapitalGainStatement.to_combined_csv`, modelled as the byte string
written to the output file: summary block, then each section block sorted by
section name, separated by blank rows, all rows padded to the widest row. -/
def to_combined_csv (st : CapitalGainStatement) : String :=
  let raw : List (List String) :=
    [["Capital Gain / Loss – Scheme level"]] ++ _table_to_rows st.summary_table ++
      [[""]] ++
      (sortByKey (fun a b => !(strLt b.1 a.1)) st.sections).flatMap
        (fun nt => [[nt.1]] ++ _table_to_rows nt.2 ++ [[""]])
  let width := (raw.map List.length).foldl max 0
  String.join (raw.map (fun r => csvRow (r ++ List.replicate (width - r.length) "")))

/-! ### Cross-validation (`cross_check_against_pdf`) -/

/-- Whether a recorded token still appears in the fresh extraction with the
same text and a position within tolerance (`|Δcenter| ≤ 2.5`, `|Δtop| ≤ 1.5`). -/
def tokenHasMatch (pdfWords : List Word) (tk : Word) : Bool :=
  pdfWords.any (fun w => decide
    (w.text = tk.text ∧ |Word.center w - Word.center tk| ≤ 5/2 ∧
      |w.top - tk.top| ≤ 3/2))

/-- The issue string reported for a failed token (`section or 'Summary'`
follows Python truthiness: `None` and `""` both fall back to `"Summary"`). -/
def issueString (cell : ExtractedCell) (token : Word) : String :=
  (match cell.sectionName with
    | none => "Summary"
    | some s => if s = "" then "Summary" else s) ++
  " -> " ++ cell.column ++ ": token \x27" ++ token.text ++
  "\x27 not found near expected position."

/-- Source `cross_check_against_pdf`, as a function of the fresh word list:
for each cell, report (once, for its first failing token) when some
provenance token has no match. -/
def cross_check_cells (pdfWords : List Word) : List ExtractedCell → List String
  | [] => []
  | c :: cs =>
    match c.words.find? (fun t => !(tokenHasMatch pdfWords t)) with
    | some t => issueString c t :: cross_check_cells pdfWords cs
    | none => cross_check_cells pdfWords cs

/-- The statement-level cross-check against the re-extracted words of the
source PDF. -/
def CapitalGainStatement.cross_check (st : CapitalGainStatement)
    (pdfWords : List Word) : List String :=
  cross_check_cells pdfWords st.cells

/-- The tagged per-page tables contributed for one section name, in page-index
order: the per-page parse results, `Page`-tagged exactly when the document is
multi-page, filtered to the given name. -/
def sectionContribs (pages : List PageData) (nm : String) : List Table :=
  ((pages.enum.flatMap (fun ip =>
      taggedEntries (decide (1 < pages.length)) ip.1 ip.2)).filter
    (fun e => decide (e.1 = nm))).map Prod.snd

/-- Merging an optional existing table with a list of new tables by repeated
`pd.concat` (the accumulated effect of the loop's dict update). -/
def combineT (o : Option Table) (ts : List Table) : Option Table :=
  match o, ts with
  | none, [] => none
  | none, t :: ts => some (ts.foldl concatTables t)
  | some t0, ts => some (ts.foldl concatTables t0)

/-! ### Concrete pages and word lists used in the theorems below -/

/-- C3 words: the first word is wide (`x1 = 100`) so the cluster's rightmost
extent is far beyond its last word's `x1 = 2`. -/
def cw1 : Word := ⟨"a", 0, 100, 0, 0, 0⟩

/-- C3 words: a narrow word overlapped by `cw1`. -/
def cw2 : Word := ⟨"b", 1, 2, 0, 0, 0⟩

/-- C3 words: starts a new cluster (gap `10 - 2 = 8 > 4` past `cw2`). -/
def cw3 : Word := ⟨"c", 10, 11, 0, 0, 0⟩

/-- A page with three accepted section labels whose mean token centers are
100, 400 and 700 (each label is `Section X :` spelled by three tokens). -/
def c4Words : List Word :=
  [⟨"Section", 80, 90, 300, 310, 0⟩, ⟨"A", 92, 98, 300, 310, 0⟩,
   ⟨":", 100, 140, 300, 310, 0⟩,
   ⟨"Section", 380, 390, 300, 310, 0⟩, ⟨"B", 392, 398, 300, 310, 0⟩,
   ⟨":", 400, 440, 300, 310, 0⟩,
   ⟨"Section", 680, 690, 300, 310, 0⟩, ⟨"C", 692, 698, 300, 310, 0⟩,
   ⟨":", 700, 740, 300, 310, 0⟩]

/-- C8 header words: two well-separated name groups at centers 100 and 200. -/
def c8HeaderWords : List Word :=
  [⟨"H1", 95, 105, 0, 0, 0⟩, ⟨"H2", 195, 205, 0, 0, 0⟩]

/-- C8 data-cluster bounds: the first data cluster reaches `x = 300`, far past
the midpoint between the two header groups. -/
def c8ClusterBounds : List (ℚ × ℚ) := [(0, 300), (305, 306)]

/-- C8 witness clusters: two ordinary disjoint single-word clusters. -/
def c8WitnessClusters : List (List Word) :=
  [[⟨"a", 0, 10, 0, 0, 0⟩], [⟨"b", 100, 110, 0, 0, 0⟩]]

/-- C8 cluster-builder words: the first word is wide (`x1 = 900`), so the
first cluster's mean center (225.75) lies to the right of the second
cluster's (10.5) although the clusters are well-formed and ordered by `x0`. -/
def c8ClusterWords : List Word :=
  [⟨"a", 0, 900, 0, 0, 0⟩, ⟨"b", 1, 2, 0, 0, 0⟩, ⟨"c", 10, 11, 0, 0, 0⟩]

/-- The column set the cluster builder produces on the C8 cluster words
(threshold 4 splits them into the clusters `[[a, b], [c]]`). -/
def c8ClusterColumns : List ColumnDef :=
  _build_columns_from_clusters (_cluster_row_words c8ClusterWords 4) [] none

/-- A page with no words and no text (its summary band is empty). -/
def pgEmpty : PageData := ⟨[], ""⟩

/-- A one-page document whose summary row cannot be located. -/
def pages1 : List PageData := [pgEmpty]

/-- A page containing one `Section A : Subscriptions` label and one data row
with two numeric tokens. -/
def pageA : PageData :=
  ⟨[⟨"Section", 10, 50, 300, 310, 0⟩, ⟨"A", 52, 56, 300, 310, 0⟩,
    ⟨":", 58, 60, 300, 310, 0⟩, ⟨"Subscriptions", 62, 120, 300, 310, 0⟩,
    ⟨"1", 100, 104, 380, 390, 0⟩, ⟨"23", 200, 208, 380, 390, 0⟩], ""⟩

/-- A two-page document: the section page followed by an empty page. -/
def pages2 : List PageData := [pageA, pgEmpty]

/-- A page whose single `Section A` data row clusters into eleven columns:
the canonical override then installs ten names on an eleven-column frame,
which pandas rejects — and nothing catches that `ValueError`. -/
def pageAbort : PageData :=
  ⟨[⟨"Section", 10, 50, 300, 310, 0⟩, ⟨"A", 52, 56, 300, 310, 0⟩,
    ⟨":", 58, 60, 300, 310, 0⟩, ⟨"Subscriptions", 62, 120, 300, 310, 0⟩,
    ⟨"1", 100, 104, 380, 390, 0⟩, ⟨"2", 110, 114, 380, 390, 0⟩,
    ⟨"3", 120, 124, 380, 390, 0⟩, ⟨"4", 130, 134, 380, 390, 0⟩,
    ⟨"5", 140, 144, 380, 390, 0⟩, ⟨"6", 150, 154, 380, 390, 0⟩,
    ⟨"7", 160, 164, 380, 390, 0⟩, ⟨"8", 170, 174, 380, 390, 0⟩,
    ⟨"9", 180, 184, 380, 390, 0⟩, ⟨"10", 190, 198, 380, 390, 0⟩,
    ⟨"11", 205, 213, 380, 390, 0⟩], ""⟩

/-- The data words of `pageA`. -/
def dw1 : Word := ⟨"1", 100, 104, 380, 390, 0⟩

/-- The second data word of `pageA`. -/
def dw2 : Word := ⟨"23", 200, 208, 380, 390, 0⟩

/-- Placeholder column used as the default of out-of-range `getD` reads. -/
def dummyColumn : ColumnDef := ⟨"", 0, 0, 0, none⟩

/-- The column set the header-group builder produces on the C8 inputs. -/
def c8Columns : List ColumnDef :=
  _columns_from_header_groups (_group_header_columns c8HeaderWords 24)
    (some "Section A : Subscriptions") c8ClusterBounds

/-- The statement that `parse_capital_gain_statement` produces for `pages2`. -/
def stEx : CapitalGainStatement :=
  ⟨emptyHeader, emptyTable,
   [("Section A : Subscriptions", ⟨["Page", "Value", "Value"], [["1", "23", "23"]]⟩)],
   [⟨some "Section A : Subscriptions", "Value", "1", [dw1]⟩,
    ⟨some "Section A : Subscriptions", "Value", "23", [dw2]⟩]⟩

/-! ## Theorems

General-purpose lemmas about the embedding come first; the numbered claim
theorems are at the end of the file. -/

/-- Membership through `insertLe`. -/
theorem mem_insertLe {α : Type} (le : α → α → Bool) (x a : α) :
    ∀ l : List α, a ∈ insertLe le x l ↔ a = x ∨ a ∈ l := by
  intro l
  induction l with
  | nil => simp [insertLe]
  | cons y ys ih =>
    by_cases h : le x y = true
    · simp [insertLe, h]
    · simp only [insertLe, h, if_neg, Bool.not_eq_true] at *
      simp [List.mem_cons, ih]
      tauto

/-- Membership through the stable sort. -/
theorem mem_sortByKey {α : Type} (le : α → α → Bool) (a : α) :
    ∀ l : List α, a ∈ sortByKey le l ↔ a ∈ l := by
  intro l
  induction l with
  | nil => simp [sortByKey]
  | cons x xs ih => simp [sortByKey, mem_insertLe, ih]

/-- Membership through the `x0` sort. -/
theorem mem_sortByX0 (a : Word) (l : List Word) : a ∈ sortByX0 l ↔ a ∈ l :=
  mem_sortByKey _ a l

/-- Membership through the `(top, x0)` sort. -/
theorem mem_sortByTopX0 (a : Word) (l : List Word) : a ∈ sortByTopX0 l ↔ a ∈ l :=
  mem_sortByKey _ a l

/-- Every member's `x1` is bounded by the fold underlying `maxX1`. -/
theorem foldl_max_x1_le (l : List Word) (init : ℚ) :
    init ≤ l.foldl (fun m v => max m v.x1) init ∧
      ∀ w ∈ l, w.x1 ≤ l.foldl (fun m v => max m v.x1) init := by
  induction l generalizing init with
  | nil => simp
  | cons v vs ih =>
    refine ⟨le_trans (le_max_left _ _) (ih (max init v.x1)).1, ?_⟩
    intro w hw
    rcases List.mem_cons.mp hw with rfl | h
    · exact le_trans (le_max_right _ _) (ih (max init w.x1)).1
    · exact (ih (max init v.x1)).2 w h

/-- Every member's `x1` is at most `maxX1` of the list. -/
theorem le_maxX1 (l : List Word) (w : Word) (hw : w ∈ l) : w.x1 ≤ maxX1 l := by
  cases l with
  | nil => cases hw
  | cons v vs =>
    rcases List.mem_cons.mp hw with h | h
    · exact h ▸ (foldl_max_x1_le vs v.x1).1
    · exact (foldl_max_x1_le vs v.x1).2 w h

/-! ### Clustering (`_cluster_row_words`) lemmas for C3 -/

/-- The clusters of `clusterGo` flatten back to the remaining sorted words. -/
theorem clusterGo_join (t : ℚ) :
    ∀ (rest : List Word) (c : Word) (acc : List Word),
      (clusterGo t c acc rest).flatMap id = (c :: acc).reverse ++ rest := by
  intro rest
  induction rest with
  | nil => intro c acc; simp [clusterGo]
  | cons w ws ih =>
    intro c acc
    by_cases h : w.x0 - c.x1 > t
    · simp [clusterGo, h, ih w []]
    · simp [clusterGo, h, ih w (c :: acc)]

/-- `clusterGo` never emits an empty cluster. -/
theorem clusterGo_ne_nil (t : ℚ) :
    ∀ (rest : List Word) (c : Word) (acc : List Word),
      ∀ cl ∈ clusterGo t c acc rest, cl ≠ [] := by
  intro rest
  induction rest with
  | nil =>
    intro c acc cl hcl
    simp only [clusterGo, List.mem_singleton] at hcl
    subst hcl; simp
  | cons w ws ih =>
    intro c acc cl hcl
    by_cases h : w.x0 - c.x1 > t
    · simp only [clusterGo, h, if_pos, List.mem_cons] at hcl
      rcases hcl with hcl | hcl
      · subst hcl; simp
      · exact ih w [] cl hcl
    · simp only [clusterGo, h, if_neg, Bool.not_eq_true] at hcl
      exact ih w (c :: acc) cl hcl

/-- The gap relation that holds between consecutive words of one cluster. -/
def gapRel (t : ℚ) (a b : Word) : Prop := b.x0 - a.x1 ≤ t

/-- Every cluster emitted by `clusterGo` is a chain for the gap relation,
provided the current (reversed) cluster already is one. -/
theorem clusterGo_chain (t : ℚ) :
    ∀ (rest : List Word) (c : Word) (acc : List Word),
      List.Chain' (gapRel t) ((c :: acc).reverse) →
      ∀ cl ∈ clusterGo t c acc rest, List.Chain' (gapRel t) cl := by
  intro rest
  induction rest with
  | nil =>
    intro c acc hacc cl hcl
    simp only [clusterGo, List.mem_singleton] at hcl
    subst hcl; exact hacc
  | cons w ws ih =>
    intro c acc hacc cl hcl
    by_cases h : w.x0 - c.x1 > t
    · simp only [clusterGo, if_pos h, List.mem_cons] at hcl
      rcases hcl with hcl | hcl
      · subst hcl; exact hacc
      · exact ih w [] (by simp) cl hcl
    · simp only [clusterGo, if_neg h] at hcl
      refine ih w (c :: acc) ?_ cl hcl
      rw [List.reverse_cons]
      refine List.chain'_append.mpr ⟨hacc, List.chain'_singleton w, ?_⟩
      intro x hx y hy
      rw [List.getLast?_reverse] at hx
      simp only [List.head?_cons, Option.mem_def, Option.some_inj] at hx hy
      subst hx
      subst hy
      exact not_lt.mp h

/-- The first cluster emitted by `clusterGo` starts with the first word of the
current cluster. -/
theorem clusterGo_head (t : ℚ) :
    ∀ (rest : List Word) (c : Word) (acc : List Word),
      ∃ cl tl, clusterGo t c acc rest = cl :: tl ∧
        cl.head? = ((c :: acc).reverse).head? := by
  intro rest
  induction rest with
  | nil => intro c acc; exact ⟨(c :: acc).reverse, [], rfl, rfl⟩
  | cons w ws ih =>
    intro c acc
    by_cases h : w.x0 - c.x1 > t
    · exact ⟨(c :: acc).reverse, clusterGo t w [] ws, by simp [clusterGo, h], rfl⟩
    · obtain ⟨cl, tl, heq, hhead⟩ := ih w (c :: acc)
      refine ⟨cl, tl, by simp [clusterGo, h, heq], ?_⟩
      rw [hhead, List.reverse_cons, List.reverse_cons]
      rw [List.head?_append_of_ne_nil _ (by simp)]

/-- The separation relation between adjacent clusters: the first word of the
next cluster starts strictly more than the threshold past the `x1` of the
previous cluster's last word. -/
def sepRel (t : ℚ) (c d : List Word) : Prop :=
  ∀ a b, c.getLast? = some a → d.head? = some b → b.x0 - a.x1 > t

/-- Adjacent clusters emitted by `clusterGo` are separated by more than the
threshold. -/
theorem clusterGo_sep (t : ℚ) :
    ∀ (rest : List Word) (c : Word) (acc : List Word),
      List.Chain' (sepRel t) (clusterGo t c acc rest) := by
  intro rest
  induction rest with
  | nil => intro c acc; simp [clusterGo]
  | cons w ws ih =>
    intro c acc
    by_cases h : w.x0 - c.x1 > t
    · simp only [clusterGo, if_pos h]
      obtain ⟨cl, tl, heq, hhead⟩ := clusterGo_head t ws w []
      rw [heq]
      refine List.chain'_cons.mpr ⟨?_, heq ▸ ih w []⟩
      intro a b ha hb
      rw [List.getLast?_reverse] at ha
      simp only [List.head?_cons, Option.some_inj] at ha
      rw [hhead] at hb
      simp only [List.reverse_cons, List.reverse_nil, List.nil_append,
        List.head?_cons, Option.some_inj] at hb
      subst ha
      subst hb
      exact h
    · simp only [clusterGo, if_neg h]
      exact ih w (c :: acc)

/-- Words with `getLast? = some a` contain `a`. -/
theorem mem_of_getLast?_word {l : List Word} {a : Word} (h : l.getLast? = some a) :
    a ∈ l := by
  cases l with
  | nil => simp at h
  | cons x xs => exact List.mem_of_mem_getLast? h

/-! ### Claim C3 -/

/-- C3, counterexample: `_cluster_row_words` closes a cluster by comparing the
next word's `x0` against the *last* word's `x1`, not the cluster's rightmost
`x1`; with the wide word `cw1` the boundary gap measured from the cluster's
rightmost extent is `10 - 100 = -90`, which does not exceed the threshold 4,
refuting the claim that the gap between the end of one cluster and the first
word of the next always exceeds the threshold. -/
theorem c3_counterexample :
    _cluster_row_words [cw1, cw2, cw3] 4 = [[cw1, cw2], [cw3]] ∧
      ¬(cw3.x0 - maxX1 [cw1, cw2] > 4) := by
  constructor
  · rfl
  · decide

/-- C3 (amended): for every word list and threshold the clustering primitive
partitions the `x0`-sorted words into nonempty clusters; within a cluster a
word's `x0` never exceeds the rightmost `x1` so far by more than the
threshold (a gap exactly equal to the threshold stays in the cluster); and
consecutive clusters are separated by a gap strictly greater than the
threshold *measured from the last word of the previous cluster* (not from its
rightmost `x1`, which is the part of the original claim refuted above). -/
theorem c3_clustering_invariant (words : List Word) (t : ℚ) :
    ((_cluster_row_words words t).flatMap id = sortByX0 words) ∧
    (∀ cl ∈ _cluster_row_words words t, cl ≠ []) ∧
    (∀ cl ∈ _cluster_row_words words t, ∀ pre w post, cl = pre ++ w :: post →
      pre ≠ [] → w.x0 - maxX1 pre ≤ t) ∧
    List.Chain' (sepRel t) (_cluster_row_words words t) := by
  unfold _cluster_row_words
  cases hs : sortByX0 words with
  | nil => simp
  | cons w rest =>
    refine ⟨?_, clusterGo_ne_nil t rest w [], ?_, clusterGo_sep t rest w []⟩
    · rw [clusterGo_join]; simp
    · intro cl hcl pre x post hpre hne
      have hchain := clusterGo_chain t rest w [] (by simp) cl hcl
      rw [hpre] at hchain
      obtain ⟨a, ha⟩ := Option.ne_none_iff_exists'.mp
        (by simpa [List.getLast?_eq_none_iff] using hne :
          pre.getLast? ≠ none)
      have hax : gapRel t a x :=
        (List.chain'_append.mp hchain).2.2 a ha x (by simp)
      have hmax : a.x1 ≤ maxX1 pre := le_maxX1 pre a (mem_of_getLast?_word ha)
      have : x.x0 - maxX1 pre ≤ x.x0 - a.x1 := by linarith
      exact le_trans this hax

/-- C3, witness: on a concrete word list the amended invariant instantiates to
a concrete partition fact. -/
theorem c3_clustering_invariant_witness :
    (_cluster_row_words [cw1, cw2, cw3] 4).flatMap id = sortByX0 [cw1, cw2, cw3] :=
  (c3_clustering_invariant [cw1, cw2, cw3] 4).1

/-! ### Claim C2 -/

/-- C2, counterexample: with 11 extracted columns in a Section A table the
override *is* applied (the guard is `>= 10`, not `== 10`), and the canonical
list it installs has only 10 names — refuting both the "iff equal" guard and
the claim that any other count leaves the headers unchanged with assembly
succeeding (pandas rejects an 11-column frame relabelled with 10 names). -/
theorem c2_counterexample :
    (_canonical_section_columns "Section A : Subscriptions" 11).isSome = true ∧
      (_canonical_section_columns "Section A : Subscriptions" 11).map List.length =
        some 10 ∧
      (11 : Nat) ≠ 10 := by
  refine ⟨by decide, by decide, by decide⟩

/-- C2 (amended): the canonical override is applied if and only if the section
prefix matches and the extracted column count is *at least* the schema length
(10 / 9 / 6 for Sections A / B / C); when applied, the installed name list has
exactly the schema length, so a count strictly above the schema length yields
a length mismatch instead of preserving the extracted headers; for a count
below the schema length the extracted names are preserved (no override). -/
theorem c2_canonical_override (name : String) (n : Nat) :
    ((_canonical_section_columns name n).isSome = true ↔
      (strStarts name "Section A" = true ∧ 10 ≤ n) ∨
      (strStarts name "Section B" = true ∧ 9 ≤ n) ∨
      (strStarts name "Section C" = true ∧ 6 ≤ n)) ∧
    ((_canonical_section_columns name n).map List.length =
      if strStarts name "Section A" = true ∧ 10 ≤ n then some 10
      else if strStarts name "Section B" = true ∧ 9 ≤ n then some 9
      else if strStarts name "Section C" = true ∧ 6 ≤ n then some 6
      else none) := by
  unfold _canonical_section_columns
  by_cases hA : strStarts name "Section A" = true ∧ 10 ≤ n
  · simp [hA, List.length_take, Nat.min_eq_right hA.2, sectionAColumns]
    try omega
  · by_cases hB : strStarts name "Section B" = true ∧ 9 ≤ n
    · simp [hA, hB, List.length_take, sectionBColumns]
      try omega
    · by_cases hC : strStarts name "Section C" = true ∧ 6 ≤ n
      · simp [hA, hB, hC, List.length_take, sectionCColumns]
        try omega
      · simp [hA, hB, hC]

/-! ### Claim C4 -/

/-- The three concrete section spans used by C4. -/
theorem c4_spans :
    sectionSpan [100, 400, 700] 0 = (0, 290) ∧
    sectionSpan [100, 400, 700] 1 = (210, 590) ∧
    sectionSpan [100, 400, 700] 2 = (510, 1000) := by
  refine ⟨by decide, by decide, by decide⟩

/-- C4: on a page whose accepted section labels have mean centers 100, 400 and
700 (in center order), the detector's pre-margin partition is
`[0,250], [250,550], [550,1000]`, and the final boundaries after the outward
margin 40 clamped to `[0,1000]` are `[0,290], [210,590], [510,1000]`. -/
theorem c4_section_boundaries (words : List Word) (nA nB nC : String)
    (h : acceptedLabels words = [(100, nA), (400, nB), (700, nC)]) :
    _detect_sections words =
      [⟨nA, 0, 290⟩, ⟨nB, 210, 590⟩, ⟨nC, 510, 1000⟩] ∧
    (List.range 3).map (sectionSpanRaw [100, 400, 700]) =
      [(0, 250), (250, 550), (550, 1000)] := by
  constructor
  · have hdet : _detect_sections words =
        (List.range (acceptedLabels words).length).map (fun idx =>
          ⟨((acceptedLabels words).getD idx (0, "")).2,
            (sectionSpan ((acceptedLabels words).map Prod.fst) idx).1,
            (sectionSpan ((acceptedLabels words).map Prod.fst) idx).2⟩) := rfl
    rw [hdet, h]
    have hr : List.range ([(100, nA), (400, nB), (700, nC)] :
        List (ℚ × String)).length = [0, 1, 2] := rfl
    rw [hr]
    simp only [List.map_cons, List.map_nil, List.getD_cons_zero, List.getD_cons_succ,
      c4_spans.1, c4_spans.2.1, c4_spans.2.2]
  · decide

/-- C4, witness: the concrete page `c4Words` has exactly those three accepted
labels, and the detector computes the claimed boundaries on it. -/
theorem c4_section_boundaries_witness :
    _detect_sections c4Words =
      [⟨"Section A :", 0, 290⟩, ⟨"Section B :", 210, 590⟩,
       ⟨"Section C :", 510, 1000⟩] :=
  (c4_section_boundaries c4Words "Section A :" "Section B :" "Section C :"
    (by rfl)).1

/-! ### Cross-check lemmas -/

/-- The cross-check returns no issues exactly when every provenance token of
every cell still has a matching word. -/
theorem cross_check_cells_nil_iff (pdfw : List Word) (cells : List ExtractedCell) :
    cross_check_cells pdfw cells = [] ↔
      ∀ c ∈ cells, ∀ tk ∈ c.words, tokenHasMatch pdfw tk = true := by
  induction cells with
  | nil => simp [cross_check_cells]
  | cons c cs ih =>
    cases hf : c.words.find? (fun t => !(tokenHasMatch pdfw t)) with
    | some t =>
      simp only [cross_check_cells, hf]
      constructor
      · intro h; exact absurd h (List.cons_ne_nil _ _)
      · intro h
        have ht := List.find?_some hf
        have hmem := List.mem_of_find?_eq_some hf
        have := h c (List.mem_cons_self c cs) t hmem
        rw [this] at ht
        simp at ht
    | none =>
      simp only [cross_check_cells, hf]
      rw [ih]
      constructor
      · intro h c' hc' tk htk
        rcases List.mem_cons.mp hc' with rfl | hmem
        · have := List.find?_eq_none.mp hf tk htk
          simpa using this
        · exact h c' hmem tk htk
      · intro h c' hc' tk htk
        exact h c' (List.mem_cons_of_mem _ hc') tk htk

/-- A cell whose first failing token is `t` contributes its issue string
(naming section, column and token) to the cross-check output. -/
theorem cross_check_cells_mem (pdfw : List Word) (cells : List ExtractedCell)
    (c : ExtractedCell) (t : Word) (hc : c ∈ cells)
    (hf : c.words.find? (fun tk => !(tokenHasMatch pdfw tk)) = some t) :
    issueString c t ∈ cross_check_cells pdfw cells := by
  induction cells with
  | nil => cases hc
  | cons c0 cs ih =>
    rcases List.mem_cons.mp hc with rfl | hmem
    · simp [cross_check_cells, hf]
    · cases hf0 : c0.words.find? (fun tk => !(tokenHasMatch pdfw tk)) with
      | some t0 =>
        simp only [cross_check_cells, hf0, List.mem_cons]
        exact Or.inr (ih hmem)
      | none =>
        simp only [cross_check_cells, hf0]
        exact ih hmem

/-- The cross-check emits at most one issue per cell. -/
theorem cross_check_cells_length (pdfw : List Word) :
    ∀ cells : List ExtractedCell,
      (cross_check_cells pdfw cells).length ≤ cells.length := by
  intro cells
  induction cells with
  | nil => simp [cross_check_cells]
  | cons c cs ih =>
    cases hf : c.words.find? (fun tk => !(tokenHasMatch pdfw tk)) with
    | some t =>
      simp only [cross_check_cells, hf, List.length_cons]
      exact Nat.succ_le_succ ih
    | none =>
      simp only [cross_check_cells, hf, List.length_cons]
      exact le_trans ih (Nat.le_succ _)

/-- A token of the fresh extraction always matches itself. -/
theorem tokenHasMatch_self (pdfw : List Word) (tk : Word) (h : tk ∈ pdfw) :
    tokenHasMatch pdfw tk = true := by
  unfold tokenHasMatch
  refine List.any_eq_true.mpr ⟨tk, h, ?_⟩
  refine decide_eq_true ⟨rfl, ?_, ?_⟩
  · rw [sub_self, abs_zero]; norm_num
  · rw [sub_self, abs_zero]; norm_num

/-! ### Provenance: every recorded cell token comes from the page's words -/

/-- Cells appended by the column loop only contain tokens of the sorted row. -/
theorem extractRowCellsGo_cells (sortedW : List Word) (sec : Option String) :
    ∀ (cols : List ColumnDef) (acc : List (String × String) × List ExtractedCell),
      ∀ c ∈ (extractRowCellsGo sortedW sec cols acc).2,
        c ∈ acc.2 ∨ ∀ tk ∈ c.words, tk ∈ sortedW := by
  intro cols
  induction cols with
  | nil => intro acc c hc; exact Or.inl hc
  | cons col rest ih =>
    intro acc c hc
    simp only [extractRowCellsGo] at hc
    by_cases hv : _join_tokens (sortedW.filter (fun w =>
        decide (col.left ≤ Word.center w ∧ Word.center w ≤ col.right))) = ""
    · rw [if_pos hv] at hc
      rcases ih (upsertStr acc.1 col.name "", acc.2) c hc with h | h
      · exact Or.inl h
      · exact Or.inr h
    · rw [if_neg hv] at hc
      rcases ih (upsertStr acc.1 col.name
          (_join_tokens (sortedW.filter (fun w =>
            decide (col.left ≤ Word.center w ∧ Word.center w ≤ col.right)))),
          acc.2 ++ [⟨sec, col.name,
            _join_tokens (sortedW.filter (fun w =>
              decide (col.left ≤ Word.center w ∧ Word.center w ≤ col.right))),
            sortedW.filter (fun w =>
              decide (col.left ≤ Word.center w ∧ Word.center w ≤ col.right))⟩])
          c hc with hacc | hsub
      · rcases List.mem_append.mp hacc with h | h
        · exact Or.inl h
        · refine Or.inr ?_
          simp only [List.mem_singleton] at h
          subst h
          intro tk htk
          exact List.mem_of_mem_filter htk
      · exact Or.inr hsub

/-- Every provenance token recorded by `_extract_row_cells` is a row word. -/
theorem extract_row_cells_words (row_words : List Word) (columns : List ColumnDef)
    (sec : Option String) :
    ∀ c ∈ (_extract_row_cells row_words columns sec).2,
      ∀ tk ∈ c.words, tk ∈ row_words := by
  intro c hc tk htk
  rcases extractRowCellsGo_cells (sortByX0 row_words) sec columns _ c hc with h | h
  · cases h
  · exact (mem_sortByX0 tk row_words).mp (h tk htk)

/-- Members of line groups come from the grouped words. -/
theorem groupLinesGo_mem (tol : ℚ) :
    ∀ (rest : List Word) (firstTop : ℚ) (cur : List Word),
      ∀ g ∈ groupLinesGo tol firstTop cur rest, ∀ w ∈ g, w ∈ cur ∨ w ∈ rest := by
  intro rest
  induction rest with
  | nil =>
    intro firstTop cur g hg w hw
    simp only [groupLinesGo, List.mem_singleton] at hg
    subst hg
    exact Or.inl (List.mem_reverse.mp hw)
  | cons w0 ws ih =>
    intro firstTop cur g hg w hw
    by_cases h : |w0.top - firstTop| ≤ tol
    · rw [groupLinesGo, if_pos h] at hg
      rcases ih firstTop (w0 :: cur) g hg w hw with hc | hr
      · rcases List.mem_cons.mp hc with rfl | hc
        · exact Or.inr (List.mem_cons_self _ _)
        · exact Or.inl hc
      · exact Or.inr (List.mem_cons_of_mem _ hr)
    · rw [groupLinesGo, if_neg h] at hg
      rcases List.mem_cons.mp hg with rfl | hg
      · exact Or.inl (List.mem_reverse.mp hw)
      · rcases ih w0.top [w0] g hg w hw with hc | hr
        · simp only [List.mem_singleton] at hc
          subst hc
          exact Or.inr (List.mem_cons_self _ _)
        · exact Or.inr (List.mem_cons_of_mem _ hr)

/-- Members of `_group_words_by_line` groups come from the input words. -/
theorem group_words_by_line_mem (words : List Word) (tol : ℚ) :
    ∀ p ∈ _group_words_by_line words tol, ∀ w ∈ p.2, w ∈ words := by
  intro p hp w hw
  unfold _group_words_by_line at hp
  cases hs : sortByTopX0 words with
  | nil => rw [hs] at hp; simp at hp
  | cons w0 rest =>
    rw [hs] at hp
    obtain ⟨g, hg, rfl⟩ := List.mem_map.mp hp
    have := groupLinesGo_mem tol rest w0.top [w0] g hg w hw
    have hmem : w ∈ w0 :: rest := by
      rcases this with h | h
      · simp only [List.mem_singleton] at h; subst h; exact List.mem_cons_self _ _
      · exact List.mem_cons_of_mem _ h
    rw [← hs] at hmem
    exact (mem_sortByTopX0 w words).mp hmem

/-- Section-band words are page words. -/
theorem sectionWords_sub (words : List Word) (b : SectionBoundary) :
    ∀ w ∈ sectionWords words b, w ∈ words := by
  intro w hw
  exact List.mem_of_mem_filter hw

/-- Data-row groups consist of section-band words. -/
theorem dataGroups_mem (words : List Word) (b : SectionBoundary) :
    ∀ g ∈ dataGroups words b, ∀ w ∈ g, w ∈ sectionWords words b := by
  intro g hg w hw
  have hg' := List.mem_of_mem_filter hg
  obtain ⟨p, hp, rfl⟩ := List.mem_map.mp hg'
  have hp' := List.mem_of_mem_filter hp
  exact group_words_by_line_mem _ _ p hp' w hw

/-- Total-row groups consist of section-band words. -/
theorem totalGroups_mem (words : List Word) (b : SectionBoundary) :
    ∀ g ∈ totalGroups words b, ∀ w ∈ g, w ∈ sectionWords words b := by
  intro g hg w hw
  have hg' := List.mem_of_mem_filter hg
  obtain ⟨p, hp, rfl⟩ := List.mem_map.mp hg'
  have hp' := List.mem_of_mem_filter hp
  exact group_words_by_line_mem _ _ p hp' w hw

/-- Every provenance token recorded for an assembled section is a page word. -/
theorem assembleSection_eq (words : List Word) (b : SectionBoundary)
    (h1 : ¬ sectionWords words b = []) (h2 : ¬ dataGroups words b = []) :
    assembleSection words b =
      match _canonical_section_columns b.name (sectionColumns words b).length with
      | some canon =>
        match setTableColumns (Table.ofRows ((sectionColumns words b).map ColumnDef.name)
            ((((dataGroups words b) ++ (totalGroups words b)).map
              (fun g => _extract_row_cells g (sectionColumns words b) (some b.name))).map
                Prod.fst)) canon with
        | .ok df => .ok (some (df,
            ((((dataGroups words b) ++ (totalGroups words b)).map
              (fun g => _extract_row_cells g (sectionColumns words b) (some b.name))).map
                Prod.snd).flatMap id))
        | .error e => .error e
      | none => .ok (some
          (Table.ofRows ((sectionColumns words b).map ColumnDef.name)
            ((((dataGroups words b) ++ (totalGroups words b)).map
              (fun g => _extract_row_cells g (sectionColumns words b) (some b.name))).map
                Prod.fst),
          ((((dataGroups words b) ++ (totalGroups words b)).map
            (fun g => _extract_row_cells g (sectionColumns words b) (some b.name))).map
              Prod.snd).flatMap id)) := by
  simp only [assembleSection, if_neg h1, if_neg h2]

/-- Every provenance token of an assembled section is a page word. -/
theorem assembleSection_cells (words : List Word) (b : SectionBoundary)
    (df : Table) (cs : List ExtractedCell)
    (h : assembleSection words b = .ok (some (df, cs))) :
    ∀ c ∈ cs, ∀ tk ∈ c.words, tk ∈ words := by
  by_cases h1 : sectionWords words b = []
  · rw [assembleSection, if_pos h1] at h; simp at h
  by_cases h2 : dataGroups words b = []
  · rw [assembleSection, if_neg h1, if_pos h2] at h; simp at h
  rw [assembleSection_eq words b h1 h2] at h
  have hcs : cs = ((((dataGroups words b) ++ (totalGroups words b)).map
      (fun g => _extract_row_cells g (sectionColumns words b) (some b.name))).map
        Prod.snd).flatMap id := by
    split at h
    · split at h
      · simp only [Except.ok.injEq, Option.some.injEq, Prod.mk.injEq] at h
        exact h.2.symm
      · exact Except.noConfusion h
    · simp only [Except.ok.injEq, Option.some.injEq, Prod.mk.injEq] at h
      exact h.2.symm
  intro c hc tk htk
  rw [hcs] at hc
  simp only [List.mem_flatMap, List.mem_map, id] at hc
  obtain ⟨l, ⟨pr, ⟨g, hgmem, rfl⟩, rfl⟩, hcl⟩ := hc
  have htk' := extract_row_cells_words g (sectionColumns words b) (some b.name) c hcl tk htk
  rcases List.mem_append.mp hgmem with hgd | hgt
  · exact sectionWords_sub words b tk (dataGroups_mem words b g hgd tk htk')
  · exact sectionWords_sub words b tk (totalGroups_mem words b g hgt tk htk')

/-- `setTableColumns` only raises the fixed length-mismatch message. -/
theorem setTableColumns_error (t : Table) (names : List String) (e : String)
    (h : setTableColumns t names = .error e) : e = columnsMismatchError := by
  rw [setTableColumns] at h
  by_cases hl : names.length = t.columns.length
  · rw [if_pos hl] at h; exact Except.noConfusion h
  · rw [if_neg hl] at h
    simp only [Except.error.injEq] at h
    exact h.symm

/-- `assembleSection` only raises the length-mismatch message. -/
theorem assembleSection_error (words : List Word) (b : SectionBoundary)
    (e : String) (h : assembleSection words b = .error e) :
    e = columnsMismatchError := by
  by_cases h1 : sectionWords words b = []
  · rw [assembleSection, if_pos h1] at h; exact Except.noConfusion h
  by_cases h2 : dataGroups words b = []
  · rw [assembleSection, if_neg h1, if_pos h2] at h; exact Except.noConfusion h
  rw [assembleSection_eq words b h1 h2] at h
  split at h
  · split at h
    · exact Except.noConfusion h
    · rename_i e' hset
      simp only [Except.error.injEq] at h
      rw [← h]
      exact setTableColumns_error _ _ _ hset
  · exact Except.noConfusion h

/-- An error accumulator propagates through the section fold unchanged. -/
theorem detail_fold_error_prop (words : List Word) (e : String) :
    ∀ bs : List SectionBoundary,
      bs.foldl (detailStep words) (.error e) = .error e := by
  intro bs
  induction bs with
  | nil => rfl
  | cons b rest ih => rw [List.foldl_cons]; exact ih

/-- The section fold only raises the length-mismatch message. -/
theorem detail_fold_error (words : List Word) (e : String) :
    ∀ (bs : List SectionBoundary)
      (acc : List (String × Table) × List ExtractedCell),
      bs.foldl (detailStep words) (.ok acc) = .error e →
      e = columnsMismatchError := by
  intro bs
  induction bs with
  | nil => intro acc h; exact Except.noConfusion h
  | cons b rest ih =>
    intro acc h
    rw [List.foldl_cons] at h
    cases hasm : assembleSection words b with
    | error e' =>
      have hstep : detailStep words (.ok acc) b = .error e' := by
        simp [detailStep, hasm]
      rw [hstep, detail_fold_error_prop] at h
      simp only [Except.error.injEq] at h
      rw [← h]
      exact assembleSection_error words b e' hasm
    | ok o =>
      cases o with
      | none =>
        have hstep : detailStep words (.ok acc) b = .ok acc := by
          simp [detailStep, hasm]
        rw [hstep] at h
        exact ih acc h
      | some dfcs =>
        obtain ⟨df, cs⟩ := dfcs
        have hstep : detailStep words (.ok acc) b =
            .ok (upsertT acc.1 b.name df, acc.2 ++ cs) := by
          simp [detailStep, hasm]
        rw [hstep] at h
        exact ih _ h

/-- `_parse_detail_sections` only raises the length-mismatch message. -/
theorem parse_detail_error (words : List Word) (e : String)
    (h : _parse_detail_sections words = .error e) : e = columnsMismatchError :=
  detail_fold_error words e (_detect_sections words) ([], []) h

/-- Every provenance token of the summary parse is a page word. -/
theorem summary_cells (words : List Word) (df : Table) (cs : List ExtractedCell)
    (h : _parse_summary_table words = .ok (df, cs)) :
    ∀ c ∈ cs, ∀ tk ∈ c.words, tk ∈ words := by
  unfold _parse_summary_table at h
  cases hd : words.filter (fun w => decide (248 ≤ w.top ∧ w.top ≤ 265)) with
  | nil => rw [hd] at h; cases h
  | cons w0 ws =>
    rw [hd] at h
    simp only [Except.ok.injEq] at h
    have hcs : cs =
        (_extract_row_cells (words.filter (fun w => decide (248 ≤ w.top ∧ w.top ≤ 265)))
          (_build_columns_from_clusters
            (_cluster_row_words (words.filter (fun w => decide (248 ≤ w.top ∧ w.top ≤ 265))) 35)
            (words.filter (fun w => decide (228 ≤ w.top ∧ w.top ≤ 245))) none) none).2 ++
        (_extract_row_cells (words.filter (fun w => decide (266 ≤ w.top ∧ w.top ≤ 285)))
          (_build_columns_from_clusters
            (_cluster_row_words (words.filter (fun w => decide (248 ≤ w.top ∧ w.top ≤ 265))) 35)
            (words.filter (fun w => decide (228 ≤ w.top ∧ w.top ≤ 245))) none) none).2 := by
      rw [hd]
      have := congrArg Prod.snd h
      simpa using this.symm
    intro c hc tk htk
    rw [hcs] at hc
    rcases List.mem_append.mp hc with hx | hx
    · have := extract_row_cells_words _ _ _ c hx tk htk
      exact List.mem_of_mem_filter this
    · have := extract_row_cells_words _ _ _ c hx tk htk
      exact List.mem_of_mem_filter this

/-- The section fold only accumulates cells whose tokens are page words. -/
theorem parse_detail_fold_cells (words : List Word) :
    ∀ (bs : List SectionBoundary)
      (acc res : List (String × Table) × List ExtractedCell),
      (∀ c ∈ acc.2, ∀ tk ∈ c.words, tk ∈ words) →
      bs.foldl (detailStep words) (.ok acc) = .ok res →
      ∀ c ∈ res.2, ∀ tk ∈ c.words, tk ∈ words := by
  intro bs
  induction bs with
  | nil =>
    intro acc res hacc h
    simp only [List.foldl_nil, Except.ok.injEq] at h
    rw [← h]
    exact hacc
  | cons b rest ih =>
    intro acc res hacc h
    rw [List.foldl_cons] at h
    cases hasm : assembleSection words b with
    | error e' =>
      have hstep : detailStep words (.ok acc) b = .error e' := by
        simp [detailStep, hasm]
      rw [hstep, detail_fold_error_prop] at h
      exact Except.noConfusion h
    | ok o =>
      cases o with
      | none =>
        have hstep : detailStep words (.ok acc) b = .ok acc := by
          simp [detailStep, hasm]
        rw [hstep] at h
        exact ih acc res hacc h
      | some dfcs =>
        obtain ⟨df, cs⟩ := dfcs
        have hstep : detailStep words (.ok acc) b =
            .ok (upsertT acc.1 b.name df, acc.2 ++ cs) := by
          simp [detailStep, hasm]
        rw [hstep] at h
        refine ih _ res ?_ h
        intro c' hc' tk htk
        rcases List.mem_append.mp hc' with hx | hx
        · exact hacc c' hx tk htk
        · exact assembleSection_cells words b df cs hasm c' hx tk htk

/-- Every provenance token of a non-raising `_parse_detail_sections` is a
page word. -/
theorem parse_detail_cells (words : List Word)
    (pt : List (String × Table) × List ExtractedCell)
    (h : _parse_detail_sections words = .ok pt) :
    ∀ c ∈ pt.2, ∀ tk ∈ c.words, tk ∈ words :=
  parse_detail_fold_cells words (_detect_sections words) ([], []) pt
    (by intro c hc; cases hc) h

/-- A non-raising `df.insert` prepends the `Page` column. -/
theorem insertPageCol_ok_eq (t : Table) (n : Nat) (t' : Table)
    (h : insertPageCol t n = .ok t') :
    t' = ⟨"Page" :: t.columns, t.rows.map (fun r => toString n :: r)⟩ := by
  rw [insertPageCol] at h
  by_cases hc : t.columns.contains "Page" = true
  · rw [if_pos hc] at h; exact Except.noConfusion h
  · rw [if_neg hc] at h
    simp only [Except.ok.injEq] at h
    exact h.symm

/-- `tagTable` on its non-raising path yields `pageTag`. -/
theorem tagTable_ok_eq (multi : Bool) (n : Nat) (t t' : Table)
    (h : tagTable multi n t = .ok t') : t' = pageTag multi n t := by
  cases multi with
  | false =>
    simp only [tagTable, Bool.false_eq_true, if_false, Except.ok.injEq] at h
    rw [← h]
    rfl
  | true =>
    simp only [tagTable, if_true] at h
    rw [insertPageCol_ok_eq t n t' h]
    rfl

/-- `tagTable` only raises the duplicate-`Page` message. -/
theorem tagTable_error (multi : Bool) (n : Nat) (t : Table) (e : String)
    (h : tagTable multi n t = .error e) : e = insertPageDuplicateError := by
  cases multi with
  | false => simp [tagTable] at h
  | true =>
    simp only [tagTable, if_true] at h
    rw [insertPageCol] at h
    by_cases hc : t.columns.contains "Page" = true
    · rw [if_pos hc] at h
      simp only [Except.error.injEq] at h
      exact h.symm
    · rw [if_neg hc] at h; exact Except.noConfusion h

/-- The tagging loop's non-raising path computes `pageTag` entrywise. -/
theorem tagEntries_ok_eq (multi : Bool) (n : Nat) :
    ∀ (l es : List (String × Table)),
      tagEntries multi n l = .ok es →
      es = l.map (fun e => (e.1, pageTag multi n e.2)) := by
  intro l
  induction l with
  | nil =>
    intro es h
    simp only [tagEntries, Except.ok.injEq] at h
    rw [← h]
    rfl
  | cons e rest ih =>
    intro es h
    rw [tagEntries] at h
    cases htag : tagTable multi n e.2 with
    | error msg => rw [htag] at h; exact Except.noConfusion h
    | ok t =>
      simp only [htag] at h
      cases hrest : tagEntries multi n rest with
      | error msg => rw [hrest] at h; exact Except.noConfusion h
      | ok ts =>
        simp only [hrest, Except.ok.injEq] at h
        rw [← h, List.map_cons, ih ts hrest, tagTable_ok_eq multi n e.2 t htag]

/-- The tagging loop only raises the duplicate-`Page` message. -/
theorem tagEntries_error (multi : Bool) (n : Nat) :
    ∀ (l : List (String × Table)) (e : String),
      tagEntries multi n l = .error e → e = insertPageDuplicateError := by
  intro l
  induction l with
  | nil => intro e h; simp [tagEntries] at h
  | cons ent rest ih =>
    intro e h
    rw [tagEntries] at h
    cases htag : tagTable multi n ent.2 with
    | error msg =>
      simp only [htag, Except.error.injEq] at h
      rw [← h]
      exact tagTable_error multi n ent.2 msg htag
    | ok t =>
      simp only [htag] at h
      cases hrest : tagEntries multi n rest with
      | error msg =>
        simp only [hrest, Except.error.injEq] at h
        rw [← h]
        exact ih msg hrest
      | ok ts => rw [hrest] at h; exact Except.noConfusion h

/-- The header/summary part only adds cells whose tokens belong to the page. -/
theorem parseStepPre_cells (multi : Bool) (idx : Nat) (p : PageData)
    (acc : ParseAcc) :
    ∃ newCells, (parseStepPre multi idx p acc).cells = acc.cells ++ newCells ∧
      ∀ c ∈ newCells, ∀ tk ∈ c.words, tk ∈ p.words := by
  by_cases h0 : idx = 0
  · subst h0
    cases hsum : _parse_summary_table p.words with
    | ok dfCells =>
      cases htag : tagTable multi 1 dfCells.1 with
      | ok df' =>
        refine ⟨dfCells.2, ?_, ?_⟩
        · by_cases hh : acc.header = none
          · simp [parseStepPre, hh, hsum, htag]
          · simp [parseStepPre, hh, hsum, htag]
        · intro c hc tk htk
          exact summary_cells p.words dfCells.1 dfCells.2 (by rw [hsum]) c hc tk htk
      | error e =>
        refine ⟨[], ?_, by intro c hc; cases hc⟩
        by_cases hh : acc.header = none
        · simp [parseStepPre, hh, hsum, htag]
        · simp [parseStepPre, hh, hsum, htag]
    | error e =>
      refine ⟨[], ?_, by intro c hc; cases hc⟩
      by_cases hh : acc.header = none
      · simp [parseStepPre, hh, hsum]
      · simp [parseStepPre, hh, hsum]
  · refine ⟨[], ?_, by intro c hc; cases hc⟩
    by_cases hh : acc.header = none ∧ idx = 0
    · exact absurd hh.2 h0
    · simp [parseStepPre, hh, h0]

/-- Destructor for a non-raising page-loop step. -/
theorem parseStep_ok_elim (multi : Bool) (idx : Nat) (p : PageData)
    (acc acc' : ParseAcc) (h : parseStep multi idx p acc = .ok acc') :
    ∃ pt entries, _parse_detail_sections p.words = .ok pt ∧
      tagEntries multi (idx + 1) pt.1 = .ok entries ∧
      acc' = { parseStepPre multi idx p acc with
               sections := entries.foldl (fun m e => upsertConcatT m e.1 e.2)
                 (parseStepPre multi idx p acc).sections
               cells := (parseStepPre multi idx p acc).cells ++ pt.2 } := by
  rw [parseStep] at h
  cases hdet : _parse_detail_sections p.words with
  | error e => rw [hdet] at h; exact Except.noConfusion h
  | ok pt =>
    simp only [hdet] at h
    cases hte : tagEntries multi (idx + 1) pt.1 with
    | error e => rw [hte] at h; exact Except.noConfusion h
    | ok entries =>
      simp only [hte, Except.ok.injEq] at h
      exact ⟨pt, entries, rfl, hte, h.symm⟩

/-- A raising page-loop step only carries a section-path message. -/
theorem parseStep_error (multi : Bool) (idx : Nat) (p : PageData)
    (acc : ParseAcc) (e : String) (h : parseStep multi idx p acc = .error e) :
    e = columnsMismatchError ∨ e = insertPageDuplicateError := by
  rw [parseStep] at h
  cases hdet : _parse_detail_sections p.words with
  | error e' =>
    simp only [hdet, Except.error.injEq] at h
    rw [← h]
    exact Or.inl (parse_detail_error p.words e' hdet)
  | ok pt =>
    simp only [hdet] at h
    cases hte : tagEntries multi (idx + 1) pt.1 with
    | error e' =>
      simp only [hte, Except.error.injEq] at h
      rw [← h]
      exact Or.inr (tagEntries_error multi (idx + 1) pt.1 e' hte)
    | ok entries => rw [hte] at h; exact Except.noConfusion h

/-- A non-raising step's frames come from the header/summary part alone. -/
theorem parseStep_frames (multi : Bool) (idx : Nat) (p : PageData)
    (acc acc' : ParseAcc) (h : parseStep multi idx p acc = .ok acc') :
    acc'.frames = (parseStepPre multi idx p acc).frames := by
  obtain ⟨pt, entries, _, _, rfl⟩ := parseStep_ok_elim multi idx p acc acc' h
  rfl

/-- A non-raising step only adds cells drawn from that page. -/
theorem parseStep_cells (multi : Bool) (idx : Nat) (p : PageData)
    (acc acc' : ParseAcc) (h : parseStep multi idx p acc = .ok acc') :
    ∃ newCells, acc'.cells = acc.cells ++ newCells ∧
      ∀ c ∈ newCells, ∀ tk ∈ c.words, tk ∈ p.words := by
  obtain ⟨pt, entries, hdet, hte, rfl⟩ := parseStep_ok_elim multi idx p acc acc' h
  obtain ⟨preCells, hpre, hprew⟩ := parseStepPre_cells multi idx p acc
  refine ⟨preCells ++ pt.2, ?_, ?_⟩
  · show (parseStepPre multi idx p acc).cells ++ pt.2 = _
    rw [hpre, List.append_assoc]
  · intro c hc tk htk
    rcases List.mem_append.mp hc with hx | hx
    · exact hprew c hx tk htk
    · exact parse_detail_cells p.words pt hdet c hx tk htk

/-- All cells accumulated by a non-raising page loop are either initial or
drawn from some processed page. -/
theorem parseLoop_cells (multi : Bool) :
    ∀ (ps : List PageData) (idx : Nat) (acc accEnd : ParseAcc),
      parseLoop multi idx ps acc = .ok accEnd →
      ∀ c ∈ accEnd.cells,
        c ∈ acc.cells ∨ ∃ p ∈ ps, ∀ tk ∈ c.words, tk ∈ p.words := by
  intro ps
  induction ps with
  | nil =>
    intro idx acc accEnd h c hc
    simp only [parseLoop, Except.ok.injEq] at h
    rw [← h] at hc
    exact Or.inl hc
  | cons p rest ih =>
    intro idx acc accEnd h c hc
    rw [parseLoop] at h
    cases hstep : parseStep multi idx p acc with
    | error e => rw [hstep] at h; exact Except.noConfusion h
    | ok acc1 =>
      simp only [hstep] at h
      rcases ih (idx + 1) acc1 accEnd h c hc with hin | ⟨p', hp', hsub⟩
      · obtain ⟨newCells, heq, hnew⟩ := parseStep_cells multi idx p acc acc1 hstep
        rw [heq] at hin
        rcases List.mem_append.mp hin with hx | hx
        · exact Or.inl hx
        · exact Or.inr ⟨p, List.mem_cons_self _ _, hnew c hx⟩
      · exact Or.inr ⟨p', List.mem_cons_of_mem _ hp', hsub⟩

/-- A raising page loop only carries a section-path message. -/
theorem parseLoop_error (multi : Bool) :
    ∀ (ps : List PageData) (idx : Nat) (acc : ParseAcc) (e : String),
      parseLoop multi idx ps acc = .error e →
      e = columnsMismatchError ∨ e = insertPageDuplicateError := by
  intro ps
  induction ps with
  | nil => intro idx acc e h; simp [parseLoop] at h
  | cons p rest ih =>
    intro idx acc e h
    rw [parseLoop] at h
    cases hstep : parseStep multi idx p acc with
    | error e' =>
      simp only [hstep, Except.error.injEq] at h
      rw [← h]
      exact parseStep_error multi idx p acc e' hstep
    | ok acc1 =>
      simp only [hstep] at h
      exact ih (idx + 1) acc1 e h

/-- Destructor for a successful whole-document parse. -/
theorem parse_ok_elim (p : PageData) (ps : List PageData)
    (st : CapitalGainStatement)
    (h : parse_capital_gain_statement (p :: ps) = .ok st) :
    ∃ acc, parseLoop (decide (1 < (p :: ps).length)) 0 (p :: ps)
        ⟨none, [], [], []⟩ = .ok acc ∧
      st = ⟨acc.header.getD emptyHeader,
        (match acc.frames with
          | [] => emptyTable
          | f :: fs => fs.foldl concatTables f),
        acc.sections, acc.cells⟩ := by
  simp only [parse_capital_gain_statement] at h
  cases hloop : parseLoop (decide (1 < (p :: ps).length)) 0 (p :: ps)
      ⟨none, [], [], []⟩ with
  | error e => rw [hloop] at h; exact Except.noConfusion h
  | ok acc =>
    simp only [hloop, Except.ok.injEq] at h
    exact ⟨acc, rfl, h.symm⟩

/-- A raising whole-document parse only carries the empty-PDF message or a
section-path message — never the summary-row message. -/
theorem parse_error (pages : List PageData) (e : String)
    (h : parse_capital_gain_statement pages = .error e) :
    e = noPagesError ∨ e = columnsMismatchError ∨
      e = insertPageDuplicateError := by
  cases pages with
  | nil =>
    simp only [parse_capital_gain_statement, Except.error.injEq] at h
    exact Or.inl h.symm
  | cons p ps =>
    simp only [parse_capital_gain_statement] at h
    cases hloop : parseLoop (decide (1 < (p :: ps).length)) 0 (p :: ps)
        ⟨none, [], [], []⟩ with
    | error e' =>
      simp only [hloop, Except.error.injEq] at h
      rw [← h]
      exact Or.inr (parseLoop_error _ _ _ _ _ hloop)
    | ok acc => rw [hloop] at h; exact Except.noConfusion h

/-- Every provenance token of a parsed statement appears among the document's
words. -/
theorem parse_cells_sub (pages : List PageData) (st : CapitalGainStatement)
    (h : parse_capital_gain_statement pages = .ok st) :
    ∀ c ∈ st.cells, ∀ tk ∈ c.words, tk ∈ allWords pages := by
  cases pages with
  | nil => simp [parse_capital_gain_statement] at h
  | cons p ps =>
    obtain ⟨acc, hloop, hst⟩ := parse_ok_elim p ps st h
    intro c hc tk htk
    have hc' : c ∈ acc.cells := by rw [hst] at hc; exact hc
    rcases parseLoop_cells _ (p :: ps) 0 ⟨none, [], [], []⟩ acc hloop c hc'
      with habs | ⟨pg, hpg, hsub⟩
    · cases habs
    · exact List.mem_flatMap.mpr ⟨pg, hpg, hsub tk htk⟩

/-! ### Column-band lemmas for C8 -/

/-- `getD` through a map over `List.range`. -/
theorem getD_map_range {α : Type} (f : ℕ → α) (d : α) (n i : ℕ) (h : i < n) :
    ((List.range n).map f).getD i d = f i := by
  rw [List.getD_eq_getElem?_getD, List.getElem?_map, List.getElem?_range h]
  rfl

/-- `getD` through a map over a list. -/
theorem getD_map_of_lt {α β : Type} (f : α → β) (l : List α) (i : ℕ)
    (d : α) (d' : β) (h : i < l.length) :
    (l.map f).getD i d' = f (l.getD i d) := by
  rw [List.getD_eq_getElem?_getD, List.getElem?_map, List.getElem?_eq_getElem h]
  simp [List.getElem?_eq_getElem h]

/-- An in-range `getD` read is a member of the list. -/
theorem getD_mem_of_lt {α : Type} (l : List α) (i : ℕ) (d : α)
    (h : i < l.length) : l.getD i d ∈ l := by
  rw [List.getD_eq_getElem l d h]
  exact List.getElem_mem h

/-- Adjacent reads of a `≤`-chain are ordered. -/
theorem chain'_getD_le (l : List ℚ) (h : List.Chain' (fun a b => a ≤ b) l)
    (i : ℕ) (hi : i + 1 < l.length) (d : ℚ) : l.getD i d ≤ l.getD (i + 1) d := by
  rw [List.getD_eq_getElem l d (by omega), List.getD_eq_getElem l d hi]
  exact List.chain'_iff_get.mp h i (by omega)

/-- Fold of `max` over rationals dominates its seed and every element. -/
theorem foldl_max_q (l : List ℚ) (init : ℚ) :
    init ≤ l.foldl max init ∧ ∀ x ∈ l, x ≤ l.foldl max init := by
  induction l generalizing init with
  | nil => simp
  | cons v vs ih =>
    refine ⟨le_trans (le_max_left _ _) (ih (max init v)).1, ?_⟩
    intro x hx
    rcases List.mem_cons.mp hx with rfl | h
    · exact le_trans (le_max_right _ _) (ih (max init x)).1
    · exact (ih (max init v)).2 x h

/-- Fold of `min` over rationals is below its seed and every element. -/
theorem foldl_min_q (l : List ℚ) (init : ℚ) :
    l.foldl min init ≤ init ∧ ∀ x ∈ l, l.foldl min init ≤ x := by
  induction l generalizing init with
  | nil => simp
  | cons v vs ih =>
    refine ⟨le_trans (ih (min init v)).1 (min_le_left _ _), ?_⟩
    intro x hx
    rcases List.mem_cons.mp hx with rfl | h
    · exact le_trans (ih (min init x)).1 (min_le_right _ _)
    · exact (ih (min init v)).2 x h

/-- `listMinQ` is a lower bound of the list. -/
theorem listMinQ_le (l : List ℚ) : ∀ x ∈ l, listMinQ l ≤ x := by
  intro x hx
  cases l with
  | nil => cases hx
  | cons v vs =>
    rcases List.mem_cons.mp hx with rfl | h
    · exact (foldl_min_q vs x).1
    · exact (foldl_min_q vs v).2 x h

/-- `listMaxQ` is an upper bound of the list. -/
theorem le_listMaxQ (l : List ℚ) (d : ℚ) : ∀ x ∈ l, x ≤ listMaxQ l d := by
  intro x hx
  cases l with
  | nil => cases hx
  | cons v vs =>
    rcases List.mem_cons.mp hx with rfl | h
    · exact (foldl_max_q vs x).1
    · exact (foldl_max_q vs v).2 x h

/-- The mean of a list is at least any common lower bound. -/
theorem le_listMean (l : List ℚ) (a : ℚ) (hne : l ≠ [])
    (h : ∀ x ∈ l, a ≤ x) : a ≤ listMean l := by
  have hlen : (0 : ℚ) < l.length := by
    cases l with
    | nil => cases hne rfl
    | cons v vs => exact_mod_cast Nat.succ_pos vs.length
  have hsum : a * l.length ≤ l.sum := by
    induction l with
    | nil => simp
    | cons v vs ih =>
      by_cases hv : vs = []
      · subst hv; simpa using h v (List.mem_cons_self _ _)
      · have h' : ∀ x ∈ vs, a ≤ x := fun x hx => h x (List.mem_cons_of_mem _ hx)
        have hlen' : (0 : ℚ) < vs.length := by
          cases vs with
          | nil => cases hv rfl
          | cons w ws => exact_mod_cast Nat.succ_pos ws.length
        have := ih hv h' hlen'
        simp only [List.sum_cons, List.length_cons]
        push_cast
        have hav := h v (List.mem_cons_self _ _)
        nlinarith
  rw [listMean, le_div_iff₀ hlen]
  exact hsum

/-- The mean of a list is at most any common upper bound. -/
theorem listMean_le (l : List ℚ) (a : ℚ) (hne : l ≠ [])
    (h : ∀ x ∈ l, x ≤ a) : listMean l ≤ a := by
  have hlen : (0 : ℚ) < l.length := by
    cases l with
    | nil => cases hne rfl
    | cons v vs => exact_mod_cast Nat.succ_pos vs.length
  have hsum : l.sum ≤ a * l.length := by
    induction l with
    | nil => simp
    | cons v vs ih =>
      by_cases hv : vs = []
      · subst hv; simpa using h v (List.mem_cons_self _ _)
      · have h' : ∀ x ∈ vs, x ≤ a := fun x hx => h x (List.mem_cons_of_mem _ hx)
        have hlen' : (0 : ℚ) < vs.length := by
          cases vs with
          | nil => cases hv rfl
          | cons w ws => exact_mod_cast Nat.succ_pos ws.length
        have := ih hv h' hlen'
        simp only [List.sum_cons, List.length_cons]
        push_cast
        have hav := h v (List.mem_cons_self _ _)
        nlinarith
  rw [listMean, div_le_iff₀ hlen]
  exact hsum

/-- For well-formed, nonempty clusters the mean center is at least the
smallest `x0`. -/
theorem clusterMinX0_le_center (cl : List Word) (hne : cl ≠ [])
    (hwf : ∀ w ∈ cl, w.x0 ≤ w.x1) : clusterMinX0 cl ≤ clusterCenter cl := by
  refine le_listMean (cl.map Word.center) (clusterMinX0 cl) (by simpa using hne) ?_
  intro x hx
  obtain ⟨w, hw, rfl⟩ := List.mem_map.mp hx
  have h1 : clusterMinX0 cl ≤ w.x0 :=
    listMinQ_le (cl.map Word.x0) w.x0 (List.mem_map_of_mem _ hw)
  have h2 : w.x0 ≤ Word.center w := by
    have := hwf w hw
    unfold Word.center
    linarith
  linarith

/-- For well-formed, nonempty clusters the mean center is at most the largest
`x1`. -/
theorem center_le_clusterMaxX1 (cl : List Word) (hne : cl ≠ [])
    (hwf : ∀ w ∈ cl, w.x0 ≤ w.x1) : clusterCenter cl ≤ clusterMaxX1 cl := by
  refine listMean_le (cl.map Word.center) (clusterMaxX1 cl) (by simpa using hne) ?_
  intro x hx
  obtain ⟨w, hw, rfl⟩ := List.mem_map.mp hx
  have h1 : w.x1 ≤ clusterMaxX1 cl :=
    le_listMaxQ (cl.map Word.x1) 0 w.x1 (List.mem_map_of_mem _ hw)
  have h2 : Word.center w ≤ w.x1 := by
    have := hwf w hw
    unfold Word.center
    linarith

  linarith

/-! ### Claim C8 -/

/-- The cluster builder's band invariant under nondecreasing mean centers:
the positive half of the C8 amendment. -/
theorem bands_nonoverlap_of_monotone (clusters : List (List Word))
    (header_words : List Word) (sec : Option String)
    (hwf : ∀ cl ∈ clusters, ∀ w ∈ cl, w.x0 ≤ w.x1)
    (hne : ∀ cl ∈ clusters, cl ≠ [])
    (hmono : List.Chain' (fun a b => a ≤ b) (clusters.map clusterCenter)) :
    ∀ i, i + 1 < (_build_columns_from_clusters clusters header_words sec).length →
      ((_build_columns_from_clusters clusters header_words sec).getD i
        dummyColumn).right ≤
      ((_build_columns_from_clusters clusters header_words sec).getD (i + 1)
        dummyColumn).left := by
  intro i hi
  have hclne : clusters ≠ [] := by
    intro h
    rw [h] at hi
    simp [_build_columns_from_clusters] at hi
  have hbuild : _build_columns_from_clusters clusters header_words sec =
      (List.range clusters.length).map (fun idx =>
        { name := colName (clusters.map clusterCenter)
            (clusters.map (fun c => (clusterMinX0 c, clusterMaxX1 c))) header_words idx
          left := colLeft (clusters.map clusterCenter)
            (clusters.map (fun c => (clusterMinX0 c, clusterMaxX1 c)))
            clusters.length idx
          right := colRight (clusters.map clusterCenter)
            (clusters.map (fun c => (clusterMinX0 c, clusterMaxX1 c)))
            clusters.length idx
          center := (clusters.map clusterCenter).getD idx 0
          sectionName := sec }) := by
    cases clusters with
    | nil => cases hclne rfl
    | cons c0 cs => rfl
  rw [hbuild] at hi ⊢
  rw [List.length_map, List.length_range] at hi
  set n := clusters.length with hn
  set centers := clusters.map clusterCenter with hcenters
  set bnds := clusters.map (fun c => (clusterMinX0 c, clusterMaxX1 c)) with hbnds
  rw [getD_map_range _ _ n i (by omega), getD_map_range _ _ n (i + 1) hi]
  show colRight centers bnds n i ≤ colLeft centers bnds n (i + 1)
  have hclen : centers.length = n := by rw [hcenters, List.length_map]
  have hc : ∀ j, j < n → centers.getD j 0 = clusterCenter (clusters.getD j []) := by
    intro j hj
    rw [hcenters]
    exact getD_map_of_lt clusterCenter clusters j [] 0 (by omega)
  have hb : ∀ j, j < n →
      bnds.getD j (0, 0) =
        (clusterMinX0 (clusters.getD j []), clusterMaxX1 (clusters.getD j [])) := by
    intro j hj
    rw [hbnds]
    exact getD_map_of_lt _ clusters j [] (0, 0) (by omega)
  have hmem : ∀ j, j < n → clusters.getD j [] ∈ clusters := fun j hj =>
    getD_mem_of_lt clusters j [] (by omega)
  have hminc : ∀ j, j < n → (bnds.getD j (0, 0)).1 ≤ centers.getD j 0 := by
    intro j hj
    rw [hb j hj, hc j hj]
    exact clusterMinX0_le_center _ (hne _ (hmem j hj)) (hwf _ (hmem j hj))
  have hmaxc : ∀ j, j < n → centers.getD j 0 ≤ (bnds.getD j (0, 0)).2 := by
    intro j hj
    rw [hb j hj, hc j hj]
    exact center_le_clusterMaxX1 _ (hne _ (hmem j hj)) (hwf _ (hmem j hj))
  have hmono' : ∀ j, j + 1 < n → centers.getD j 0 ≤ centers.getD (j + 1) 0 := by
    intro j hj
    exact chain'_getD_le centers hmono j (by omega) 0
  have hmargin_i : 0 ≤ colMargin centers bnds n i := by
    rw [colMargin]
    refine le_min (by norm_num) ?_
    have hspan : colLeftRaw centers bnds i ≤ colRightRaw centers bnds n i := by
      rw [colRightRaw, if_neg (by omega : ¬ i = n - 1)]
      by_cases h0 : i = 0
      · subst h0
        rw [colLeftRaw, if_pos rfl]
        have h1 := hminc 0 (by omega)
        have h2 := hmono' 0 (by omega)
        linarith
      · rw [colLeftRaw, if_neg h0]
        have h1 := hmono' (i - 1) (by omega)
        have h2 := hmono' i (by omega)
        rw [show i - 1 + 1 = i by omega] at h1
        linarith
    linarith
  have hmargin_i1 : 0 ≤ colMargin centers bnds n (i + 1) := by
    rw [colMargin]
    refine le_min (by norm_num) ?_
    have hspan : colLeftRaw centers bnds (i + 1) ≤ colRightRaw centers bnds n (i + 1) := by
      rw [colLeftRaw, if_neg (by omega : ¬ i + 1 = 0),
        show i + 1 - 1 = i by omega]
      have h2 := hmono' i (by omega)
      by_cases hlast : i + 1 = n - 1
      · rw [colRightRaw, if_pos hlast]
        have h3 := hmaxc (i + 1) (by omega)
        linarith
      · rw [colRightRaw, if_neg hlast]
        have h3 := hmono' (i + 1) (by omega)
        linarith
    linarith
  rw [colRight, if_pos (by omega : i < n - 1),
    colLeft, if_pos (by omega : 0 < i + 1),
    colRightRaw, if_neg (by omega : ¬ i = n - 1),
    colLeftRaw, if_neg (by omega : ¬ i + 1 = 0),
    show i + 1 - 1 = i by omega]
  linarith

/-- Adjacent interior boundaries of the cluster builder share the midpoint of
the adjacent cluster mean centers, each side trimmed by its own margin
`min(5, span/4)`. -/
theorem bands_midpoint_characterisation (clusters : List (List Word))
    (header_words : List Word) (sec : Option String) :
    ∀ i, i + 1 < (_build_columns_from_clusters clusters header_words sec).length →
      ((_build_columns_from_clusters clusters header_words sec).getD i
          dummyColumn).right =
        ((clusters.map clusterCenter).getD i 0 +
            (clusters.map clusterCenter).getD (i + 1) 0) / 2 -
          colMargin (clusters.map clusterCenter)
            (clusters.map (fun c => (clusterMinX0 c, clusterMaxX1 c)))
            clusters.length i ∧
      ((_build_columns_from_clusters clusters header_words sec).getD (i + 1)
          dummyColumn).left =
        ((clusters.map clusterCenter).getD i 0 +
            (clusters.map clusterCenter).getD (i + 1) 0) / 2 +
          colMargin (clusters.map clusterCenter)
            (clusters.map (fun c => (clusterMinX0 c, clusterMaxX1 c)))
            clusters.length (i + 1) := by
  intro i hi
  have hclne : clusters ≠ [] := by
    intro h
    rw [h] at hi
    simp [_build_columns_from_clusters] at hi
  have hbuild : _build_columns_from_clusters clusters header_words sec =
      (List.range clusters.length).map (fun idx =>
        { name := colName (clusters.map clusterCenter)
            (clusters.map (fun c => (clusterMinX0 c, clusterMaxX1 c))) header_words idx
          left := colLeft (clusters.map clusterCenter)
            (clusters.map (fun c => (clusterMinX0 c, clusterMaxX1 c)))
            clusters.length idx
          right := colRight (clusters.map clusterCenter)
            (clusters.map (fun c => (clusterMinX0 c, clusterMaxX1 c)))
            clusters.length idx
          center := (clusters.map clusterCenter).getD idx 0
          sectionName := sec }) := by
    cases clusters with
    | nil => cases hclne rfl
    | cons c0 cs => rfl
  rw [hbuild] at hi ⊢
  rw [List.length_map, List.length_range] at hi
  set n := clusters.length with hn
  set centers := clusters.map clusterCenter with hcenters
  set bnds := clusters.map (fun c => (clusterMinX0 c, clusterMaxX1 c)) with hbnds
  rw [getD_map_range _ _ n i (by omega), getD_map_range _ _ n (i + 1) hi]
  constructor
  · show colRight centers bnds n i =
      (centers.getD i 0 + centers.getD (i + 1) 0) / 2 - colMargin centers bnds n i
    rw [colRight, if_pos (by omega : i < n - 1),
      colRightRaw, if_neg (by omega : ¬ i = n - 1)]
  · show colLeft centers bnds n (i + 1) =
      (centers.getD i 0 + centers.getD (i + 1) 0) / 2 + colMargin centers bnds n (i + 1)
    rw [colLeft, if_pos (by omega : 0 < i + 1),
      colLeftRaw, if_neg (by omega : ¬ i + 1 = 0),
      show i + 1 - 1 = i by omega]

/-- C8, counterexample: both column builders violate the band invariant on
reachable input.  The header-group builder widens every band to cover the
corresponding data cluster (`right = max(right, cluster_max + 3)`), so a data
cluster extending past the midpoint pushes the first column's right bound
(303) beyond the second column's left bound (302).  The cluster builder fails
on well-formed words as well: a wide first word makes the cluster mean
centers decrease (225.75, then 10.5), the second column's trim margin
`min(5, span/4)` goes negative, and the adjacent bands overlap
(right bound 113.125 > left bound 92.59375). -/
theorem c8_counterexample :
    (c8Columns.length = 2 ∧
      ¬((c8Columns.getD 0 dummyColumn).right ≤
          (c8Columns.getD 1 dummyColumn).left)) ∧
    ((∀ cl ∈ _cluster_row_words c8ClusterWords 4, ∀ w ∈ cl, w.x0 ≤ w.x1) ∧
      (∀ cl ∈ _cluster_row_words c8ClusterWords 4, cl ≠ []) ∧
      c8ClusterColumns.length = 2 ∧
      ¬((c8ClusterColumns.getD 0 dummyColumn).right ≤
          (c8ClusterColumns.getD 1 dummyColumn).left)) :=
  ⟨⟨by rfl, by decide⟩, by decide, by decide, by rfl, by decide⟩

/-- C8 (amended): for the cluster builder `_build_columns_from_clusters`,
adjacent columns share the midpoint of the adjacent cluster mean centers —
the left column's right bound is that midpoint minus its own trim margin
`min(5, span/4)` and the right column's left bound is the midpoint plus the
next column's margin — so adjacent bands are non-overlapping precisely when
the two trim margins sum to a nonnegative value.  That holds whenever the
words are well-formed (`x0 ≤ x1`), the clusters are nonempty and the cluster
mean centers are nondecreasing; it fails when the centers decrease (a margin
goes negative, counterexample above), and the header-group builder
`_columns_from_header_groups` violates the invariant outright through its
data-cluster widening (counterexample above). -/
theorem c8_band_invariant (clusters : List (List Word))
    (header_words : List Word) (sec : Option String) :
    (∀ i, i + 1 < (_build_columns_from_clusters clusters header_words sec).length →
      ((_build_columns_from_clusters clusters header_words sec).getD i
          dummyColumn).right =
        ((clusters.map clusterCenter).getD i 0 +
            (clusters.map clusterCenter).getD (i + 1) 0) / 2 -
          colMargin (clusters.map clusterCenter)
            (clusters.map (fun c => (clusterMinX0 c, clusterMaxX1 c)))
            clusters.length i ∧
      ((_build_columns_from_clusters clusters header_words sec).getD (i + 1)
          dummyColumn).left =
        ((clusters.map clusterCenter).getD i 0 +
            (clusters.map clusterCenter).getD (i + 1) 0) / 2 +
          colMargin (clusters.map clusterCenter)
            (clusters.map (fun c => (clusterMinX0 c, clusterMaxX1 c)))
            clusters.length (i + 1) ∧
      (((_build_columns_from_clusters clusters header_words sec).getD i
          dummyColumn).right ≤
        ((_build_columns_from_clusters clusters header_words sec).getD (i + 1)
          dummyColumn).left ↔
        0 ≤ colMargin (clusters.map clusterCenter)
              (clusters.map (fun c => (clusterMinX0 c, clusterMaxX1 c)))
              clusters.length i +
            colMargin (clusters.map clusterCenter)
              (clusters.map (fun c => (clusterMinX0 c, clusterMaxX1 c)))
              clusters.length (i + 1))) ∧
    ((∀ cl ∈ clusters, ∀ w ∈ cl, w.x0 ≤ w.x1) →
      (∀ cl ∈ clusters, cl ≠ []) →
      List.Chain' (fun a b => a ≤ b) (clusters.map clusterCenter) →
      ∀ i, i + 1 < (_build_columns_from_clusters clusters header_words sec).length →
        ((_build_columns_from_clusters clusters header_words sec).getD i
          dummyColumn).right ≤
        ((_build_columns_from_clusters clusters header_words sec).getD (i + 1)
          dummyColumn).left) := by
  constructor
  · intro i hi
    obtain ⟨hr, hl⟩ := bands_midpoint_characterisation clusters header_words sec i hi
    refine ⟨hr, hl, ?_⟩
    rw [hr, hl]
    constructor
    · intro hle; linarith
    · intro hm; linarith
  · intro hwf hne hmono
    exact bands_nonoverlap_of_monotone clusters header_words sec hwf hne hmono

/-- C8, witness: two disjoint well-formed clusters with nondecreasing centers
instantiate the amended invariant's conditional half, with the adjacent
bounds `50 ≤ 60`. -/
theorem c8_band_invariant_witness :
    (∀ cl ∈ c8WitnessClusters, ∀ w ∈ cl, w.x0 ≤ w.x1) ∧
    (∀ cl ∈ c8WitnessClusters, cl ≠ []) ∧
    List.Chain' (fun a b => a ≤ b) (c8WitnessClusters.map clusterCenter) ∧
    ((_build_columns_from_clusters c8WitnessClusters [] none).getD 0
        dummyColumn).right ≤
      ((_build_columns_from_clusters c8WitnessClusters [] none).getD 1
        dummyColumn).left := by
  have hchain : List.Chain' (fun a b => a ≤ b) (c8WitnessClusters.map clusterCenter) := by
    rw [show c8WitnessClusters.map clusterCenter = [5, 105] from rfl]
    exact List.chain'_pair.mpr (by norm_num)
  refine ⟨by decide, by decide, hchain, ?_⟩
  exact (c8_band_invariant c8WitnessClusters [] none).2 (by decide) (by decide)
    hchain 0 (by decide)

/-! ### Section-skip lemmas for C9 -/

/-- Lookup through a replacing dict update. -/
theorem lookup_upsertT (m : List (String × Table)) (k : String) (v : Table)
    (k' : String) :
    lookupT (upsertT m k v) k' = if k' = k then some v else lookupT m k' := by
  induction m with
  | nil =>
    by_cases h : k' = k
    · simp [upsertT, lookupT, h]
    · have h2 : ¬k = k' := fun hc => h hc.symm
      simp [upsertT, lookupT, h, h2]
  | cons e rest ih =>
    obtain ⟨ek, ev⟩ := e
    by_cases hek : ek = k
    · subst hek
      by_cases h : k' = ek
      · subst h
        simp [upsertT, lookupT]
      · have h2 : ¬ek = k' := fun hc => h hc.symm
        simp [upsertT, lookupT, h, h2]
    · by_cases h : k' = ek
      · have h2 : ¬k' = k := fun hc => hek (h.symm.trans hc)
        have h3 : ek = k' := h.symm
        simp [upsertT, lookupT, hek, h2, h3]
      · have h2 : ¬ek = k' := fun hc => h hc.symm
        simp [upsertT, lookupT, hek, h, h2, ih]

/-- If a section boundary is skipped, `assembleSection` neither raises nor
assembles. -/
theorem assembleSection_skip (words : List Word) (b : SectionBoundary)
    (h : sectionWords words b = [] ∨ dataGroups words b = []) :
    assembleSection words b = .ok none := by
  rcases h with h1 | h2
  · rw [assembleSection, if_pos h1]
  · by_cases h1 : sectionWords words b = []
    · rw [assembleSection, if_pos h1]
    · rw [assembleSection, if_neg h1, if_pos h2]

/-- On the assembling path, `assembleSection` returns a table or raises, but
never skips. -/
theorem assembleSection_no_skip (words : List Word) (b : SectionBoundary)
    (h1 : ¬ sectionWords words b = []) (h2 : ¬ dataGroups words b = []) :
    ¬ assembleSection words b = .ok none := by
  rw [assembleSection_eq words b h1 h2]
  split
  · split
    · intro h
      simp only [Except.ok.injEq] at h
      exact Option.noConfusion h
    · intro h
      exact Except.noConfusion h
  · intro h
    simp only [Except.ok.injEq] at h
    exact Option.noConfusion h

/-- A non-raising section fold contains a name exactly when some boundary
with that name assembled a table. -/
theorem lookup_detail_fold_isSome (words : List Word) (nm : String) :
    ∀ (bs : List SectionBoundary)
      (acc res : List (String × Table) × List ExtractedCell),
      bs.foldl (detailStep words) (.ok acc) = .ok res →
      (((lookupT res.1 nm).isSome = true) ↔
        ((lookupT acc.1 nm).isSome = true ∨
          ∃ b ∈ bs, b.name = nm ∧
            ∃ dfcs, assembleSection words b = .ok (some dfcs))) := by
  intro bs
  induction bs with
  | nil =>
    intro acc res h
    simp only [List.foldl_nil, Except.ok.injEq] at h
    rw [← h]
    simp
  | cons b rest ih =>
    intro acc res h
    rw [List.foldl_cons] at h
    cases hasm : assembleSection words b with
    | error e' =>
      have hstep : detailStep words (.ok acc) b = .error e' := by
        simp [detailStep, hasm]
      rw [hstep, detail_fold_error_prop] at h
      exact Except.noConfusion h
    | ok o =>
      cases o with
      | none =>
        have hstep : detailStep words (.ok acc) b = .ok acc := by
          simp [detailStep, hasm]
        rw [hstep] at h
        rw [ih acc res h]
        constructor
        · rintro (hx | ⟨b', hb', hnm, hsome⟩)
          · exact Or.inl hx
          · exact Or.inr ⟨b', List.mem_cons_of_mem _ hb', hnm, hsome⟩
        · rintro (hx | ⟨b', hb', hnm, dfcs, hsome⟩)
          · exact Or.inl hx
          · rcases List.mem_cons.mp hb' with rfl | hb'
            · rw [hasm] at hsome
              simp only [Except.ok.injEq] at hsome
              exact Option.noConfusion hsome
            · exact Or.inr ⟨b', hb', hnm, dfcs, hsome⟩
      | some dfcs =>
        obtain ⟨df, cs⟩ := dfcs
        have hstep : detailStep words (.ok acc) b =
            .ok (upsertT acc.1 b.name df, acc.2 ++ cs) := by
          simp [detailStep, hasm]
        rw [hstep] at h
        rw [ih _ res h]
        have hl : (lookupT (upsertT acc.1 b.name df) nm).isSome = true ↔
            (nm = b.name ∨ (lookupT acc.1 nm).isSome = true) := by
          rw [lookup_upsertT]
          by_cases hx : nm = b.name
          · simp [hx]
          · simp [hx]
        rw [hl]
        constructor
        · rintro ((hx | hx) | ⟨b', hb', hnm, hsome⟩)
          · exact Or.inr ⟨b, List.mem_cons_self _ _, hx.symm, (df, cs), hasm⟩
          · exact Or.inl hx
          · exact Or.inr ⟨b', List.mem_cons_of_mem _ hb', hnm, hsome⟩
        · rintro (hx | ⟨b', hb', hnm, hsome⟩)
          · exact Or.inl (Or.inr hx)
          · rcases List.mem_cons.mp hb' with rfl | hb'
            · exact Or.inl (Or.inl hnm.symm)
            · exact Or.inr ⟨b', hb', hnm, hsome⟩

/-! ### Claim C9 -/

/-- C9: a detected section boundary is skipped — `assembleSection` returns
`.ok none`, raising nothing — exactly when its band has no words or no
qualifying data rows (the two silent `continue` paths), and a non-raising
page's section map contains a name exactly when some boundary with that
name assembled a table: skipped sections are simply absent and the remaining
sections are unaffected. -/
theorem c9_section_skip (words : List Word) (nm : String) :
    (∀ pt, _parse_detail_sections words = .ok pt →
      (((lookupT pt.1 nm).isSome = true) ↔
        ∃ b ∈ _detect_sections words, b.name = nm ∧
          ∃ dfcs, assembleSection words b = .ok (some dfcs))) ∧
    (∀ b : SectionBoundary,
      assembleSection words b = .ok none ↔
        sectionWords words b = [] ∨ dataGroups words b = []) := by
  constructor
  · intro pt hpt
    rw [lookup_detail_fold_isSome words nm (_detect_sections words) ([], []) pt hpt]
    simp [lookupT]
  · intro b
    constructor
    · intro h
      by_cases h1 : sectionWords words b = []
      · exact Or.inl h1
      by_cases h2 : dataGroups words b = []
      · exact Or.inr h2
      exact absurd h (assembleSection_no_skip words b h1 h2)
    · exact assembleSection_skip words b

/-- C9, witness: on the concrete section page the detail parse does not raise
and the `Section A` table is present, via a boundary that assembled a table. -/
theorem c9_section_skip_witness :
    (lookupT ([("Section A : Subscriptions",
        (⟨["Value", "Value"], [["23", "23"]]⟩ : Table))])
      "Section A : Subscriptions").isSome = true :=
  ((c9_section_skip pageA.words "Section A : Subscriptions").1
    ([("Section A : Subscriptions", ⟨["Value", "Value"], [["23", "23"]]⟩)],
      [⟨some "Section A : Subscriptions", "Value", "1", [dw1]⟩,
       ⟨some "Section A : Subscriptions", "Value", "23", [dw2]⟩])
    (by rfl)).mpr
    ⟨⟨"Section A : Subscriptions", 0, 1000⟩, by decide, rfl,
      (⟨["Value", "Value"], [["23", "23"]]⟩,
        [⟨some "Section A : Subscriptions", "Value", "1", [dw1]⟩,
         ⟨some "Section A : Subscriptions", "Value", "23", [dw2]⟩]), by rfl⟩

/-! ### Page-loop frame lemmas for C1 and C7 -/

/-- Pages after the first never touch the summary frames. -/
theorem parseStepPre_frames_pos (multi : Bool) (idx : Nat) (p : PageData)
    (acc : ParseAcc) (h : idx ≠ 0) :
    (parseStepPre multi idx p acc).frames = acc.frames := by
  simp only [parseStepPre]
  by_cases hh : acc.header = none ∧ idx = 0
  · exact absurd hh.2 h
  · rw [if_neg hh, if_neg h]

/-- The loop started past page 0, when it does not raise, never touches the
summary frames. -/
theorem parseLoop_frames_pos (multi : Bool) :
    ∀ (ps : List PageData) (idx : Nat) (acc accEnd : ParseAcc), idx ≠ 0 →
      parseLoop multi idx ps acc = .ok accEnd → accEnd.frames = acc.frames := by
  intro ps
  induction ps with
  | nil =>
    intro idx acc accEnd _ h
    simp only [parseLoop, Except.ok.injEq] at h
    rw [← h]
  | cons p rest ih =>
    intro idx acc accEnd hidx h
    rw [parseLoop] at h
    cases hstep : parseStep multi idx p acc with
    | error e => rw [hstep] at h; exact Except.noConfusion h
    | ok acc1 =>
      simp only [hstep] at h
      rw [ih (idx + 1) acc1 accEnd (by omega) h,
        parseStep_frames multi idx p acc acc1 hstep,
        parseStepPre_frames_pos multi idx p acc hidx]

/-- The frames after the page-0 header/summary part: appended when both the
summary parse and its `Page` insert succeed, untouched when either raises
(the whole summary block sits in one `try/except ValueError`). -/
theorem parseStepPre_frames_zero (multi : Bool) (p : PageData) (acc : ParseAcc) :
    (parseStepPre multi 0 p acc).frames =
      acc.frames ++ (summaryFrame multi p.words).toList := by
  cases hsum : _parse_summary_table p.words with
  | ok dfCells =>
    cases htag : tagTable multi 1 dfCells.1 with
    | ok df' =>
      by_cases hh : acc.header = none
      · simp [parseStepPre, summaryFrame, hh, hsum, htag]
      · simp [parseStepPre, summaryFrame, hh, hsum, htag]
    | error e =>
      by_cases hh : acc.header = none
      · simp [parseStepPre, summaryFrame, hh, hsum, htag]
      · simp [parseStepPre, summaryFrame, hh, hsum, htag]
  | error e =>
    by_cases hh : acc.header = none
    · simp [parseStepPre, summaryFrame, hh, hsum]
    · simp [parseStepPre, summaryFrame, hh, hsum]

/-- The summary table produced by a successful whole parse is determined by
page 0: the page-0 summary frame when the summary parse and its tagging
succeed, the empty frame otherwise. -/
theorem parse_summary_characterisation (p0 : PageData) (ps : List PageData)
    (st : CapitalGainStatement)
    (h : parse_capital_gain_statement (p0 :: ps) = .ok st) :
    st.summary_table =
      (summaryFrame (decide (1 < (p0 :: ps).length)) p0.words).getD emptyTable := by
  obtain ⟨acc, hloop, hst⟩ := parse_ok_elim p0 ps st h
  rw [parseLoop] at hloop
  cases hstep : parseStep (decide (1 < (p0 :: ps).length)) 0 p0 ⟨none, [], [], []⟩ with
  | error e => rw [hstep] at hloop; exact Except.noConfusion hloop
  | ok acc1 =>
    simp only [hstep] at hloop
    have hframes : acc.frames =
        (summaryFrame (decide (1 < (p0 :: ps).length)) p0.words).toList := by
      rw [parseLoop_frames_pos _ ps 1 acc1 acc (by omega) hloop,
        parseStep_frames _ 0 p0 _ acc1 hstep,
        parseStepPre_frames_zero]
      rfl
    rw [hst]
    show (match acc.frames with
      | [] => emptyTable
      | f :: fs => fs.foldl concatTables f) = _
    rw [hframes]
    cases hsf : summaryFrame (decide (1 < (p0 :: ps).length)) p0.words with
    | none => rfl
    | some df' => rfl

/-! ### Claim C1 -/

/-- C1, counterexample: a one-page document whose summary band contains no
words makes `_parse_summary_table` raise, yet the whole-document parse
*returns a statement* (with an empty summary table) instead of aborting — the
`try/except ValueError: pass` in the page loop swallows the error. -/
theorem c1_counterexample :
    parse_capital_gain_statement pages1 =
      .ok ⟨emptyHeader, emptyTable, [], []⟩ := by
  rfl

/-- The section path's relabel `ValueError` is *not* caught: a page whose
`Section A` data row clusters into eleven columns aborts the whole parse
(contrast with the swallowed summary error of the C1 counterexample). -/
theorem parse_aborts_on_canonical_mismatch :
    parse_capital_gain_statement [pageAbort] = .error columnsMismatchError := by
  rfl

/-- C1 (amended): when the summary row cannot be located on page 0 (the
summary band holds no words), the `ValueError` raised by the summary-table
parser is caught and silently discarded by `parse_capital_gain_statement`:
the parse never aborts with the summary-row error — its only raises are the
empty-PDF check and the two uncaught section-path errors (canonical relabel
length mismatch, duplicate `Page` insert) — and whenever it returns a
statement, that statement's summary table is the empty frame. -/
theorem c1_summary_failure_swallowed (pages : List PageData) (p0 : PageData)
    (hhead : pages.head? = some p0)
    (hsum : p0.words.filter (fun w => decide (248 ≤ w.top ∧ w.top ≤ 265)) = []) :
    (∀ st, parse_capital_gain_statement pages = .ok st →
      st.summary_table = emptyTable) ∧
    parse_capital_gain_statement pages ≠ .error summaryRowError := by
  have herr : _parse_summary_table p0.words = .error summaryRowError := by
    unfold _parse_summary_table
    rw [hsum]
  constructor
  · intro st hst
    cases pages with
    | nil => cases hhead
    | cons p ps =>
      have hp0 : p0 = p := by
        simp only [List.head?_cons, Option.some_inj] at hhead
        exact hhead.symm
      subst hp0
      have hsummary := parse_summary_characterisation p0 ps st hst
      have hsf : summaryFrame (decide (1 < (p0 :: ps).length)) p0.words = none := by
        simp [summaryFrame, herr]
      rw [hsf] at hsummary
      exact hsummary
  · intro habort
    rcases parse_error pages summaryRowError habort with hx | hx | hx
    · exact absurd hx (by decide)
    · exact absurd hx (by decide)
    · exact absurd hx (by decide)

/-- C1, witness: the empty one-page document instantiates the amended claim —
the parse does not abort with the summary error, and the statement it
returns carries the empty summary frame. -/
theorem c1_summary_failure_swallowed_witness :
    (⟨emptyHeader, emptyTable, [], []⟩ :
        CapitalGainStatement).summary_table = emptyTable ∧
    parse_capital_gain_statement pages1 ≠ .error summaryRowError :=
  ⟨(c1_summary_failure_swallowed pages1 pgEmpty rfl (by rfl)).1
      ⟨emptyHeader, emptyTable, [], []⟩ (by rfl),
    (c1_summary_failure_swallowed pages1 pgEmpty rfl (by rfl)).2⟩

/-! ### Claim C6 -/

/-- C6: the parse-and-export pipeline is a pure function of the per-page word
lists and page texts it receives — two runs on equal extracted inputs produce
the identical combined-CSV byte string (the embedding is stateless; every
ordering the exporter relies on, dict insertion order and the sort of section
names, is deterministic). -/
theorem c6_parse_deterministic (pagesA pagesB : List PageData)
    (h : pagesA = pagesB) :
    (parse_capital_gain_statement pagesA).map to_combined_csv =
      (parse_capital_gain_statement pagesB).map to_combined_csv := by
  rw [h]

/-- C6, witness: two runs on the concrete two-page document agree, and the
exported bytes are the concrete CSV string (CRLF line ends, padded rows). -/
theorem c6_parse_deterministic_witness :
    (parse_capital_gain_statement pages2).map to_combined_csv =
        (parse_capital_gain_statement pages2).map to_combined_csv ∧
      (parse_capital_gain_statement pages2).map to_combined_csv =
        .ok ("Capital Gain / Loss – Scheme level,,\r\n,,\r\n,,\r\n" ++
          "Section A : Subscriptions,,\r\nPage,Value,Value\r\n1,23,23\r\n,,\r\n") :=
  ⟨c6_parse_deterministic pages2 pages2 rfl, by rfl⟩

/-! ### Page-merge lemmas for C7 -/

/-- Lookup through a concatenating dict update. -/
theorem lookup_upsertConcatT (m : List (String × Table)) (k : String) (v : Table)
    (k' : String) :
    lookupT (upsertConcatT m k v) k' =
      if k' = k then
        (match lookupT m k with
          | none => some v
          | some t => some (concatTables t v))
      else lookupT m k' := by
  induction m with
  | nil =>
    by_cases h : k' = k
    · simp [upsertConcatT, lookupT, h]
    · have h2 : ¬k = k' := fun hc => h hc.symm
      simp [upsertConcatT, lookupT, h, h2]
  | cons e rest ih =>
    obtain ⟨ek, ev⟩ := e
    by_cases hek : ek = k
    · subst hek
      by_cases h : k' = ek
      · subst h
        simp [upsertConcatT, lookupT]
      · have h2 : ¬ek = k' := fun hc => h hc.symm
        simp [upsertConcatT, lookupT, h, h2]
    · by_cases h : k' = ek
      · have h2 : ¬k' = k := fun hc => hek (h.symm.trans hc)
        have h3 : ek = k' := h.symm
        have h4 : ¬ek = k := hek
        simp [upsertConcatT, lookupT, hek, h2, h3, h4]
      · have h2 : ¬ek = k' := fun hc => h hc.symm
        simp [upsertConcatT, lookupT, hek, h, h2, ih]

/-- Lookup after folding a list of dict-concat updates: the initial value
merged with all matching entries, in order. -/
theorem lookup_fold_upsertConcatT (nm : String) :
    ∀ (es : List (String × Table)) (m : List (String × Table)),
      lookupT (es.foldl (fun m e => upsertConcatT m e.1 e.2) m) nm =
        combineT (lookupT m nm)
          ((es.filter (fun e => decide (e.1 = nm))).map Prod.snd) := by
  intro es
  induction es with
  | nil =>
    intro m
    simp only [List.foldl_nil, List.filter_nil, List.map_nil]
    cases hm : lookupT m nm with
    | none => rfl
    | some t => rfl
  | cons e rest ih =>
    intro m
    rw [List.foldl_cons, ih]
    rw [lookup_upsertConcatT]
    by_cases he : e.1 = nm
    · rw [if_pos he.symm]
      have hfil : (e :: rest).filter (fun e => decide (e.1 = nm)) =
          e :: rest.filter (fun e => decide (e.1 = nm)) :=
        List.filter_cons_of_pos (by simp [he])
      rw [hfil, List.map_cons]
      rw [he]
      cases hm : lookupT m nm with
      | none =>
        cases hrest : rest.filter (fun e => decide (e.1 = nm)) with
        | nil => rfl
        | cons f fs => rfl
      | some t => rfl
    · rw [if_neg (fun hc => he hc.symm)]
      have hfil : (e :: rest).filter (fun e => decide (e.1 = nm)) =
          rest.filter (fun e => decide (e.1 = nm)) :=
        List.filter_cons_of_neg (by simp [he])
      rw [hfil]

/-- `parseStepPre` never touches the section dict. -/
theorem parseStepPre_sections (multi : Bool) (idx : Nat) (p : PageData)
    (acc : ParseAcc) :
    (parseStepPre multi idx p acc).sections = acc.sections := by
  simp only [parseStepPre]
  repeat' split
  all_goals rfl

/-- A non-raising page-loop step merges exactly the page's tagged entries
into the section dict. -/
theorem parseStep_sections (multi : Bool) (idx : Nat) (p : PageData)
    (acc acc' : ParseAcc) (h : parseStep multi idx p acc = .ok acc') :
    acc'.sections =
      (taggedEntries multi idx p).foldl
        (fun m e => upsertConcatT m e.1 e.2) acc.sections := by
  obtain ⟨pt, entries, hdet, hte, rfl⟩ := parseStep_ok_elim multi idx p acc acc' h
  show entries.foldl (fun m e => upsertConcatT m e.1 e.2)
    (parseStepPre multi idx p acc).sections = _
  rw [parseStepPre_sections, tagEntries_ok_eq multi (idx + 1) pt.1 entries hte]
  unfold taggedEntries pageSectionTables
  rw [hdet]

/-- A non-raising page loop merges the tagged entries of all pages, in page
order. -/
theorem parseLoop_sections (multi : Bool) :
    ∀ (ps : List PageData) (idx : Nat) (acc accEnd : ParseAcc),
      parseLoop multi idx ps acc = .ok accEnd →
      accEnd.sections =
        ((ps.enumFrom idx).flatMap (fun ip => taggedEntries multi ip.1 ip.2)).foldl
          (fun m e => upsertConcatT m e.1 e.2) acc.sections := by
  intro ps
  induction ps with
  | nil =>
    intro idx acc accEnd h
    simp only [parseLoop, Except.ok.injEq] at h
    rw [← h]
    rfl
  | cons p rest ih =>
    intro idx acc accEnd h
    rw [parseLoop] at h
    cases hstep : parseStep multi idx p acc with
    | error e => rw [hstep] at h; exact Except.noConfusion h
    | ok acc1 =>
      simp only [hstep] at h
      rw [ih (idx + 1) acc1 accEnd h]
      rw [parseStep_sections multi idx p acc acc1 hstep]
      rw [show (p :: rest).enumFrom idx = (idx, p) :: rest.enumFrom (idx + 1) from rfl]
      rw [List.flatMap_cons, List.foldl_append]

/-- The parsed statement's section dict, looked up by name, is the fold of the
page-order tagged contributions for that name. -/
theorem parse_sections_characterisation (pages : List PageData)
    (st : CapitalGainStatement)
    (h : parse_capital_gain_statement pages = .ok st) (nm : String) :
    lookupT st.sections nm = combineT none (sectionContribs pages nm) := by
  cases pages with
  | nil => simp [parse_capital_gain_statement] at h
  | cons p ps =>
    obtain ⟨acc, hloop, hst⟩ := parse_ok_elim p ps st h
    have hsec : st.sections = acc.sections := by rw [hst]
    rw [hsec, parseLoop_sections _ (p :: ps) 0 ⟨none, [], [], []⟩ acc hloop]
    rw [lookup_fold_upsertConcatT]
    rfl

/-- Bounds of indices appearing in `enumFrom`. -/
theorem mem_enumFrom_bounds {α : Type} :
    ∀ (l : List α) (n i : Nat) (a : α),
      (i, a) ∈ l.enumFrom n → n ≤ i ∧ i < n + l.length := by
  intro l
  induction l with
  | nil => intro n i a h; cases h
  | cons x xs ih =>
    intro n i a h
    rw [show (x :: xs).enumFrom n = (n, x) :: xs.enumFrom (n + 1) from rfl] at h
    rcases List.mem_cons.mp h with heq | hmem
    · simp only [Prod.mk.injEq] at heq
      obtain ⟨rfl, rfl⟩ := heq
      refine ⟨le_refl _, ?_⟩
      simp only [List.length_cons]
      omega
    · have := ih (n + 1) i a hmem
      constructor
      · omega
      · simp only [List.length_cons]
        omega

/-- A nonempty head can be peeled off. -/
theorem exists_cons_of_head?_word {α : Type} {l : List α} {x : α}
    (h : l.head? = some x) : ∃ t, l = x :: t := by
  cases l with
  | nil => cases h
  | cons a t =>
    simp only [List.head?_cons, Option.some_inj] at h
    exact ⟨t, by rw [h]⟩

/-- `pd.concat` preserves the `Page`-tagged shape: a leading `Page` column and
rows starting with a 1-based page number. -/
theorem concat_preserves_page (N : Nat) (t1 t2 : Table)
    (h1 : t1.columns.head? = some "Page" ∧
      ∀ r ∈ t1.rows, ∃ i, i < N ∧ r.head? = some (toString (i + 1)))
    (h2 : t2.columns.head? = some "Page" ∧
      ∀ r ∈ t2.rows, ∃ i, i < N ∧ r.head? = some (toString (i + 1))) :
    (concatTables t1 t2).columns.head? = some "Page" ∧
      ∀ r ∈ (concatTables t1 t2).rows, ∃ i, i < N ∧
        r.head? = some (toString (i + 1)) := by
  obtain ⟨c1, hrows1⟩ := h1
  obtain ⟨c2, hrows2⟩ := h2
  obtain ⟨restc1, hc1⟩ := exists_cons_of_head?_word c1
  obtain ⟨restc2, hc2⟩ := exists_cons_of_head?_word c2
  unfold concatTables
  by_cases hcols : t1.columns = t2.columns
  · rw [if_pos hcols]
    refine ⟨c1, ?_⟩
    intro r hr
    rcases List.mem_append.mp hr with h | h
    · exact hrows1 r h
    · exact hrows2 r h
  · rw [if_neg hcols]
    have hne : t1.columns ≠ [] := by rw [hc1]; simp
    have hcolshead :
        (t1.columns ++ t2.columns.filter (fun c => !(t1.columns.contains c))).head? =
          some "Page" := by
      rw [List.head?_append_of_ne_nil _ hne, c1]
    refine ⟨hcolshead, ?_⟩
    intro r hr
    rcases List.mem_append.mp hr with h | h
    all_goals obtain ⟨r0, hr0, rfl⟩ := List.mem_map.mp h
    · obtain ⟨i, hi, hhead⟩ := hrows1 r0 hr0
      obtain ⟨restr, hrr⟩ := exists_cons_of_head?_word hhead
      refine ⟨i, hi, ?_⟩
      rw [List.head?_map, hcolshead, hc1, hrr]
      simp [lookupStr]
    · obtain ⟨i, hi, hhead⟩ := hrows2 r0 hr0
      obtain ⟨restr, hrr⟩ := exists_cons_of_head?_word hhead
      refine ⟨i, hi, ?_⟩
      rw [List.head?_map, hcolshead, hc2, hrr]
      simp [lookupStr]

/-- Folding `pd.concat` over `Page`-tagged tables stays `Page`-tagged. -/
theorem foldl_concat_preserves_page (N : Nat) :
    ∀ (ts : List Table) (t0 : Table),
      (t0.columns.head? = some "Page" ∧
        ∀ r ∈ t0.rows, ∃ i, i < N ∧ r.head? = some (toString (i + 1))) →
      (∀ t ∈ ts, t.columns.head? = some "Page" ∧
        ∀ r ∈ t.rows, ∃ i, i < N ∧ r.head? = some (toString (i + 1))) →
      ((ts.foldl concatTables t0).columns.head? = some "Page" ∧
        ∀ r ∈ (ts.foldl concatTables t0).rows, ∃ i, i < N ∧
          r.head? = some (toString (i + 1))) := by
  intro ts
  induction ts with
  | nil => intro t0 h0 _; exact h0
  | cons t rest ih =>
    intro t0 h0 hts
    rw [List.foldl_cons]
    exact ih (concatTables t0 t)
      (concat_preserves_page N t0 t h0 (hts t (List.mem_cons_self _ _)))
      (fun t' ht' => hts t' (List.mem_cons_of_mem _ ht'))

/-- In a multi-page document, every contributed section table is
`Page`-tagged with a valid 1-based page number. -/
theorem sectionContribs_page_tagged (pages : List PageData) (nm : String)
    (hmulti : 1 < pages.length) :
    ∀ t ∈ sectionContribs pages nm,
      t.columns.head? = some "Page" ∧
        ∀ r ∈ t.rows, ∃ i, i < pages.length ∧
          r.head? = some (toString (i + 1)) := by
  intro t ht
  unfold sectionContribs at ht
  obtain ⟨e, he, rfl⟩ := List.mem_map.mp ht
  have he' := List.mem_of_mem_filter he
  obtain ⟨ip, hip, hemem⟩ := List.mem_flatMap.mp he'
  unfold taggedEntries at hemem
  obtain ⟨e0, _, rfl⟩ := List.mem_map.mp hemem
  have hdec : decide (1 < pages.length) = true := decide_eq_true hmulti
  rw [hdec] at *
  obtain ⟨ib, pb⟩ := ip
  have hb := mem_enumFrom_bounds pages 0 ib pb hip
  have htag : pageTag true (ib + 1) e0.2 =
      ⟨"Page" :: e0.2.columns,
        e0.2.rows.map (fun r => toString (ib + 1) :: r)⟩ := rfl
  show (pageTag true (ib + 1) e0.2).columns.head? = some "Page" ∧ _
  rw [htag]
  constructor
  · rfl
  · intro r hr
    obtain ⟨r0, _, rfl⟩ := List.mem_map.mp hr
    exact ⟨ib, by omega, rfl⟩

/-! ### Claim C7 -/

/-- C7: pages are processed sequentially; for every section name the final
table is the page-index-ordered `pd.concat` fold of the per-page tables
(`combineT none` of `sectionContribs`, which also shows the summary frame is
appended only from page 0); when the document is multi-page every section
table carries `Page` as its first column, every row starting with a valid
1-based page number, and so does the summary table (with page number 1) —
while a single-page document contributes the per-page tables unchanged (no
`Page` column inserted). -/
theorem c7_page_merge (pages : List PageData) (st : CapitalGainStatement)
    (h : parse_capital_gain_statement pages = .ok st) :
    (∀ nm, lookupT st.sections nm = combineT none (sectionContribs pages nm)) ∧
    (1 < pages.length → ∀ nm t, lookupT st.sections nm = some t →
      t.columns.head? = some "Page" ∧
        ∀ r ∈ t.rows, ∃ i, i < pages.length ∧
          r.head? = some (toString (i + 1))) ∧
    (∀ p0, pages = [p0] → ∀ nm,
      sectionContribs pages nm =
        ((pageSectionTables p0).filter
          (fun e => decide (e.1 = nm))).map Prod.snd) ∧
    (1 < pages.length →
      st.summary_table = emptyTable ∨
        (st.summary_table.columns.head? = some "Page" ∧
          ∀ r ∈ st.summary_table.rows, r.head? = some "1")) := by
  refine ⟨fun nm => parse_sections_characterisation pages st h nm, ?_, ?_, ?_⟩
  · intro hmulti nm t hlook
    rw [parse_sections_characterisation pages st h nm] at hlook
    cases hcon : sectionContribs pages nm with
    | nil => rw [hcon] at hlook; cases hlook
    | cons t0 ts =>
      rw [hcon] at hlook
      simp only [combineT, Option.some_inj] at hlook
      subst hlook
      have hall := sectionContribs_page_tagged pages nm hmulti
      rw [hcon] at hall
      exact foldl_concat_preserves_page pages.length ts t0
        (hall t0 (List.mem_cons_self _ _))
        (fun t' ht' => hall t' (List.mem_cons_of_mem _ ht'))
  · intro p0 hp0 nm
    subst hp0
    unfold sectionContribs
    have hdec : decide (1 < ([p0] : List PageData).length) = false := rfl
    rw [show ([p0] : List PageData).enum = [(0, p0)] from rfl]
    rw [show ([(0, p0)] : List (Nat × PageData)).flatMap
        (fun ip => taggedEntries (decide (1 < ([p0] : List PageData).length)) ip.1 ip.2) =
      taggedEntries (decide (1 < ([p0] : List PageData).length)) 0 p0 by
        simp [List.flatMap_cons]]
    rw [hdec]
    unfold taggedEntries
    rw [show (fun (e : String × Table) => (e.1, pageTag false (0 + 1) e.2)) =
      (fun e => e) from funext (fun e => by simp [pageTag])]
    rw [List.map_id']
  · intro hmulti
    cases pages with
    | nil => simp [parse_capital_gain_statement] at h
    | cons p0 ps =>
      have hsummary := parse_summary_characterisation p0 ps st h
      cases hsf : summaryFrame (decide (1 < (p0 :: ps).length)) p0.words with
      | none =>
        rw [hsf] at hsummary
        exact Or.inl hsummary
      | some df' =>
        rw [hsf] at hsummary
        have hdec : decide (1 < (p0 :: ps).length) = true := decide_eq_true hmulti
        rw [hdec, summaryFrame] at hsf
        cases hsum : _parse_summary_table p0.words with
        | error e =>
          simp only [hsum] at hsf
          exact Option.noConfusion hsf
        | ok dfCells =>
          simp only [hsum] at hsf
          cases htag : tagTable true 1 dfCells.1 with
          | error e =>
            simp only [htag] at hsf
            exact Option.noConfusion hsf
          | ok df2 =>
            simp only [htag, Option.some.injEq] at hsf
            have hdf' : df' = pageTag true 1 dfCells.1 := by
              rw [← hsf]
              exact tagTable_ok_eq true 1 dfCells.1 df2 htag
            refine Or.inr ?_
            rw [hsummary, hdf']
            refine ⟨rfl, ?_⟩
            intro r hr
            obtain ⟨r0, _, rfl⟩ := List.mem_map.mp hr
            rfl

/-- C7, witness: on the concrete two-page document the Section A table is
`Page`-tagged with page number 1. -/
theorem c7_page_merge_witness :
    (⟨["Page", "Value", "Value"], [["1", "23", "23"]]⟩ : Table).columns.head? =
        some "Page" ∧
      ∀ r ∈ (⟨["Page", "Value", "Value"], [["1", "23", "23"]]⟩ : Table).rows,
        ∃ i, i < pages2.length ∧ r.head? = some (toString (i + 1)) :=
  (c7_page_merge pages2 stEx (by rfl)).2.1 (by decide)
    "Section A : Subscriptions" _ (by rfl)

/-! ### Claim C5 -/

/-- C5: the cross-check emits an issue for a recorded cell exactly when some
provenance token of the cell has no word in the fresh extraction with
identical text, `|Δcenter| ≤ 2.5` and `|Δtop| ≤ 1.5` — the empty issue list is
equivalent to every token of every cell matching, and a cell whose first
failing token is `t` contributes the issue string naming its section, column
and token; in particular cross-checking a parsed statement against the very
words it was parsed from returns `[]`. -/
theorem c5_cross_check_soundness (pages : List PageData)
    (st : CapitalGainStatement)
    (h : parse_capital_gain_statement pages = .ok st) :
    (∀ (cells : List ExtractedCell) (pdfw : List Word),
      cross_check_cells pdfw cells = [] ↔
        ∀ c ∈ cells, ∀ tk ∈ c.words, tokenHasMatch pdfw tk = true) ∧
    (∀ (cells : List ExtractedCell) (pdfw : List Word) (c : ExtractedCell)
        (t : Word), c ∈ cells →
      c.words.find? (fun tk => !(tokenHasMatch pdfw tk)) = some t →
      issueString c t ∈ cross_check_cells pdfw cells) ∧
    st.cross_check (allWords pages) = [] := by
  refine ⟨fun cells pdfw => cross_check_cells_nil_iff pdfw cells,
    fun cells pdfw c t hc hf => cross_check_cells_mem pdfw cells c t hc hf, ?_⟩
  unfold CapitalGainStatement.cross_check
  rw [cross_check_cells_nil_iff]
  intro c hc tk htk
  exact tokenHasMatch_self (allWords pages) tk
    (parse_cells_sub pages st h c hc tk htk)

/-- C5, witness: parsing the concrete two-page document and cross-checking the
result against the same words yields no issues. -/
theorem c5_cross_check_soundness_witness :
    stEx.cross_check (allWords pages2) = [] :=
  (c5_cross_check_soundness pages2 stEx (by rfl)).2.2

/-! ### Claim C10 -/

/-- C10: the cross-check records at most one issue per recorded cell (after a
cell's first failing token the remaining tokens are not checked), so the
issue list is never longer than the statement's cell list. -/
theorem c10_cross_check_issue_bound (cells : List ExtractedCell)
    (pdfw : List Word) :
    (cross_check_cells pdfw cells).length ≤ cells.length :=
  cross_check_cells_length pdfw cells

end CapitalGainParser